import Mathlib

/-!
Verification of the ZXC one-shot codec (file `src/lib/zxc_dispatch.c`,
`src/lib/zxc_common.c`, `src/lib/zxc_decompress.c`) against its
natural-language specification.

Byte buffers are modelled as `List Nat` (each entry one byte).  Pointer
arithmetic becomes list indices; fallible C functions returning negative
`zxc_error_t` codes become `Except ZxcErr`.  Machine integers are `Nat`
with explicit `% 2 ^ w` where the C code can overflow.

The primitive header `zxc_internal.h` (hash functions, bit reader,
numeric constants) is not part of the provided tree; where a definition
below depends on it, it is modelled from the specification and marked
`Modelled from the spec:` in its doc comment.  The block encoder
(`zxc_compress.c`) is also absent and is not modelled at all: the
`zxc_compress` frame layer takes it as a parameter, and the theorems
about compressed archives quantify over every encoder satisfying the
encoder–container contract `zxc_chunk_enc_ok`.  Everything else is
translated from the C sources.
-/

/-- Error codes of `zxc_error_t` (include/zxc_error.h).  The extra
constructor `oobMatchRead` is instrumentation only: it marks the places
where the C decoder performs an unchecked match copy whose source lies
before the start of the destination buffer (undefined behaviour in C);
the C enum has no such value. -/
inductive ZxcErr where
  | memory
  | dstTooSmall
  | srcTooSmall
  | badMagic
  | badVersion
  | badHeader
  | badChecksum
  | corruptData
  | badOffset
  | overflowCap
  | ioFail
  | nullInput
  | badBlockType
  | oobMatchRead
  deriving DecidableEq, Repr

/-- Byte at index `i` of a buffer as a `uint8_t` read (masked to a byte);
0 when out of range (C reads are only performed after bounds checks; the
default is never observable in the verified paths). -/
def byteAt (l : List Nat) (i : Nat) : Nat := l.getD i 0 % 256

/-- Little-endian 16-bit load (`zxc_le16`). -/
def zxc_le16 (l : List Nat) (i : Nat) : Nat :=
  byteAt l i + 256 * byteAt l (i + 1)

/-- Little-endian 32-bit load (`zxc_le32`). -/
def zxc_le32 (l : List Nat) (i : Nat) : Nat :=
  byteAt l i + 256 * byteAt l (i + 1) + 65536 * byteAt l (i + 2) +
    16777216 * byteAt l (i + 3)

/-- Little-endian 64-bit load (`zxc_le64`). -/
def zxc_le64 (l : List Nat) (i : Nat) : Nat :=
  zxc_le32 l i + 4294967296 * zxc_le32 l (i + 4)

/-- Little-endian 16-bit store (`zxc_store_le16`): the two bytes of
`v % 2^16`. -/
def zxc_store_le16 (v : Nat) : List Nat :=
  [v % 256, v / 256 % 256]

/-- Little-endian 32-bit store (`zxc_store_le32`): the four bytes of
`v % 2^32`. -/
def zxc_store_le32 (v : Nat) : List Nat :=
  [v % 256, v / 256 % 256, v / 65536 % 256, v / 16777216 % 256]

/-- Little-endian 64-bit store (`zxc_store_le64`): the eight bytes of
`v % 2^64`. -/
def zxc_store_le64 (v : Nat) : List Nat :=
  zxc_store_le32 v ++ zxc_store_le32 (v / 4294967296)

/-- Modelled from the spec: `zxc_hash8`, the CRC-8 of the 8-byte block
header with its CRC slot zeroed (`zxc_internal.h` is not in the tree, so
the exact polynomial is unknown; the verified claims only need a
deterministic byte-valued function recomputed identically by writer and
reader). -/
def zxc_hash8 (l : List Nat) : Nat :=
  l.foldl (fun a b => (a * 31 + b + 7) % 256) 5

/-- Modelled from the spec: `zxc_hash16`, the CRC-16 of the 16-byte file
header with its CRC slot zeroed (exact polynomial not in the tree). -/
def zxc_hash16 (l : List Nat) : Nat :=
  l.foldl (fun a b => (a * 257 + b + 11) % 65536) 9

/-- Modelled from the spec: `zxc_checksum`, the 32-bit content hash of a
block payload (RapidHash family; exact function not in the tree). -/
def zxc_checksum (l : List Nat) : Nat :=
  l.foldl (fun a b => (a * 16777619 + b + 1) % 4294967296) 2166136261

/-- Rotate a 32-bit value left by one bit. -/
def rotl32_1 (v : Nat) : Nat :=
  (v * 2) % 4294967296 + v / 2147483648 % 2

/-- Global-hash combiner (`zxc_hash_combine_rotate`, pinned by the spec:
`rotate_left_1(acc) XOR block_hash`). -/
def zxc_hash_combine_rotate (acc h : Nat) : Nat :=
  Nat.xor (rotl32_1 acc) (h % 4294967296)

/-- Modelled from the spec: `ZXC_MAGIC_WORD`, a fixed 32-bit little-endian
word (its exact value lives in the missing `zxc_internal.h`). -/
def ZXC_MAGIC_WORD : Nat := 0x0043585A

/-- Modelled from the spec: `ZXC_FILE_FORMAT_VERSION`, a single-byte
constant. -/
def ZXC_FILE_FORMAT_VERSION : Nat := 7

/-- Modelled from the spec: upper flag bits identifying the RapidHash
content-hash family (`ZXC_CHECKSUM_RAPIDHASH`). -/
def ZXC_CHECKSUM_RAPIDHASH : Nat := 2

/-- `ZXC_FILE_FLAG_HAS_CHECKSUM`: file-flag bit 0. -/
def ZXC_FILE_FLAG_HAS_CHECKSUM : Nat := 1

/-- `ZXC_BLOCK_SIZE` = 256 KiB. -/
def ZXC_BLOCK_SIZE : Nat := 262144

/-- `ZXC_BLOCK_UNIT` = 4 KiB. -/
def ZXC_BLOCK_UNIT : Nat := 4096

/-- `ZXC_FILE_HEADER_SIZE` = 16 bytes. -/
def ZXC_FILE_HEADER_SIZE : Nat := 16

/-- `ZXC_BLOCK_HEADER_SIZE` = 8 bytes. -/
def ZXC_BLOCK_HEADER_SIZE : Nat := 8

/-- `ZXC_FILE_FOOTER_SIZE` = 12 bytes. -/
def ZXC_FILE_FOOTER_SIZE : Nat := 12

/-- `ZXC_BLOCK_CHECKSUM_SIZE` = `ZXC_GLOBAL_CHECKSUM_SIZE` = 4 bytes. -/
def ZXC_BLOCK_CHECKSUM_SIZE : Nat := 4

/-- `ZXC_PAD_SIZE` = 32 bytes of wild-copy headroom. -/
def ZXC_PAD_SIZE : Nat := 32

/-- `ZXC_LZ_MIN_MATCH_LEN` = 4. -/
def ZXC_LZ_MIN_MATCH_LEN : Nat := 4

/-- `ZXC_LZ_OFFSET_BIAS` = 1 (stored offsets are `actual - 1`). -/
def ZXC_LZ_OFFSET_BIAS : Nat := 1

/-- Block type tags (wire-stable). -/
def ZXC_BLOCK_RAW : Nat := 1

/-- NUM block type tag. -/
def ZXC_BLOCK_NUM : Nat := 2

/-- GLO block type tag. -/
def ZXC_BLOCK_GLO : Nat := 3

/-- GHI block type tag. -/
def ZXC_BLOCK_GHI : Nat := 4

/-- EOF block type tag. -/
def ZXC_BLOCK_EOF : Nat := 255

/-- GLO token: 4-bit literal-length nibble mask / extension sentinel. -/
def ZXC_TOKEN_LL_MASK : Nat := 15

/-- GLO token: 4-bit match-length nibble mask / extension sentinel. -/
def ZXC_TOKEN_ML_MASK : Nat := 15

/-- GLO token: bit position of the literal-length nibble. -/
def ZXC_TOKEN_LIT_BITS : Nat := 4

/-- GHI sequence word: 8-bit literal-length field sentinel. -/
def ZXC_SEQ_LL_MASK : Nat := 255

/-- GHI sequence word: 8-bit match-length field sentinel. -/
def ZXC_SEQ_ML_MASK : Nat := 255

/-- GLO literal-stream RLE flag (bit 7 of a run token). -/
def ZXC_LIT_RLE_FLAG : Nat := 128

/-- GLO literal-stream RLE length mask (low 7 bits of a run token). -/
def ZXC_LIT_LEN_MASK : Nat := 127

/-- Section descriptor: low 32 bits hold the on-disk size. -/
def ZXC_SECTION_SIZE_MASK : Nat := 4294967295

/-- GLO payload header size in bytes. -/
def ZXC_GLO_HEADER_BINARY_SIZE : Nat := 16

/-- GHI payload header size in bytes. -/
def ZXC_GHI_HEADER_BINARY_SIZE : Nat := 16

/-- Section descriptor size in bytes. -/
def ZXC_SECTION_DESC_BINARY_SIZE : Nat := 8

/-- Number of GLO sections (literals, tokens, offsets, extras). -/
def ZXC_GLO_SECTIONS : Nat := 4

/-- Number of GHI sections (literals, sequences, extras). -/
def ZXC_GHI_SECTIONS : Nat := 3

/-- NUM payload header size in bytes. -/
def ZXC_NUM_HEADER_BINARY_SIZE : Nat := 16

/-- NUM per-frame chunk header size in bytes. -/
def ZXC_NUM_CHUNK_HEADER_SIZE : Nat := 16

/-- `zxc_compress_bound` (zxc_common.c): worst-case compressed size.
`SIZE_MAX` is `2^64 - 1`; the per-block overhead term is
`ZXC_BLOCK_HEADER_SIZE + ZXC_BLOCK_CHECKSUM_SIZE + 64 = 76`.  The final
sum is 64-bit arithmetic, hence the `% 2^64`. -/
def zxc_compress_bound (input_size : Nat) : Nat :=
  if input_size > (2 ^ 64 - 1) - (2 ^ 64 - 1) / 2 ^ 8 then 0
  else
    let n0 := (input_size + ZXC_BLOCK_SIZE - 1) / ZXC_BLOCK_SIZE
    let n := if n0 = 0 then 1 else n0
    (ZXC_FILE_HEADER_SIZE +
      n * (ZXC_BLOCK_HEADER_SIZE + ZXC_BLOCK_CHECKSUM_SIZE + 64) +
      input_size + ZXC_BLOCK_HEADER_SIZE + ZXC_FILE_FOOTER_SIZE) % 2 ^ 64

/-- `zxc_get_decompressed_size` (zxc_dispatch.c): LE64 read from the file
footer after a size and magic check, 0 on any failure. -/
def zxc_get_decompressed_size (src : List Nat) (src_size : Nat) : Nat :=
  if src_size < ZXC_FILE_HEADER_SIZE + ZXC_FILE_FOOTER_SIZE then 0
  else if zxc_le32 src 0 ≠ ZXC_MAGIC_WORD then 0
  else zxc_le64 src (src_size - ZXC_FILE_FOOTER_SIZE)

/-- The 16 bytes written by `zxc_write_file_header` (zxc_common.c):
`magic (4) | version | block units | flags | reserved (7) | crc16 (2)`,
with the CRC-16 computed over the header with its CRC slot zeroed. -/
def zxc_file_header_bytes (has_checksum : Bool) : List Nat :=
  let flags := if has_checksum then
    ZXC_FILE_FLAG_HAS_CHECKSUM + ZXC_CHECKSUM_RAPIDHASH else 0
  let body := zxc_store_le32 ZXC_MAGIC_WORD ++
    [ZXC_FILE_FORMAT_VERSION, ZXC_BLOCK_SIZE / ZXC_BLOCK_UNIT, flags,
     0, 0, 0, 0, 0, 0, 0]
  body ++ zxc_store_le16 (zxc_hash16 (body ++ [0, 0]))

/-- `zxc_write_file_header` (zxc_common.c): emits the 16 header bytes,
or `DST_TOO_SMALL` when the capacity is below 16. -/
def zxc_write_file_header (dst_capacity : Nat) (has_checksum : Bool) :
    Except ZxcErr (List Nat) :=
  if dst_capacity < ZXC_FILE_HEADER_SIZE then .error .dstTooSmall
  else .ok (zxc_file_header_bytes has_checksum)

/-- `zxc_read_file_header` (zxc_common.c): validates magic, version and
CRC-16, then returns the decoded block size (byte 5 scaled by
`ZXC_BLOCK_UNIT`, defaulting to 64 units when zero) and the checksum
flag (bit 0 of byte 6). -/
def zxc_read_file_header (src : List Nat) (src_size : Nat) :
    Except ZxcErr (Nat × Bool) :=
  if src_size < ZXC_FILE_HEADER_SIZE then .error .srcTooSmall
  else if zxc_le32 src 0 ≠ ZXC_MAGIC_WORD then .error .badMagic
  else if byteAt src 4 ≠ ZXC_FILE_FORMAT_VERSION then .error .badVersion
  else if zxc_le16 src 14 ≠ zxc_hash16 (src.take 14 ++ [0, 0]) then
    .error .badHeader
  else
    let units := if byteAt src 5 ≠ 0 then byteAt src 5 else 64
    .ok (units * ZXC_BLOCK_UNIT,
         byteAt src 6 % 2 = ZXC_FILE_FLAG_HAS_CHECKSUM)

/-- The 8 bytes of a block header as written by `zxc_write_block_header`:
`type | 0 | 0 | comp_size (LE32) | crc8` where the CRC-8 is computed with
the CRC byte zeroed. -/
def zxc_block_header_bytes (block_type comp_size : Nat) : List Nat :=
  let body := [block_type % 256, 0, 0] ++ zxc_store_le32 comp_size
  body ++ [zxc_hash8 (body ++ [0])]

/-- `zxc_write_block_header` (zxc_common.c): serialises an 8-byte block
header, or `DST_TOO_SMALL` when the capacity is below 8. -/
def zxc_write_block_header (dst_capacity : Nat) (block_type comp_size : Nat) :
    Except ZxcErr (List Nat) :=
  if dst_capacity < ZXC_BLOCK_HEADER_SIZE then .error .dstTooSmall
  else .ok (zxc_block_header_bytes block_type comp_size)

/-- Decoded block-header fields (`zxc_block_header_t`). -/
structure ZxcBlockHeader where
  block_type : Nat
  comp_size : Nat
  deriving DecidableEq, Repr

/-- `zxc_read_block_header` (zxc_common.c): validates the embedded CRC-8
(recomputed over the first 7 bytes with the CRC byte zeroed) and decodes
the type and compressed-size fields. -/
def zxc_read_block_header (src : List Nat) (src_size : Nat) :
    Except ZxcErr ZxcBlockHeader :=
  if src_size < ZXC_BLOCK_HEADER_SIZE then .error .srcTooSmall
  else if byteAt src 7 ≠ zxc_hash8 (src.take 7 ++ [0]) then .error .badHeader
  else .ok ⟨byteAt src 0, zxc_le32 src 3⟩

/-- `zxc_write_file_footer` (zxc_common.c): 12-byte footer holding the
LE64 source size and, when checksums are enabled, the LE32 global hash
(zero-filled otherwise). -/
def zxc_write_file_footer (dst_capacity : Nat) (src_size global_hash : Nat)
    (checksum_enabled : Bool) : Except ZxcErr (List Nat) :=
  if dst_capacity < ZXC_FILE_FOOTER_SIZE then .error .dstTooSmall
  else .ok (zxc_store_le64 src_size ++
    (if checksum_enabled then zxc_store_le32 global_hash else [0, 0, 0, 0]))

/-- `zxc_read_varint` (zxc_decompress.c): prefix-varint read.  `p` is the
current index, `pEnd` the exclusive stream bound; returns the decoded
value and the advanced index, `(0, pEnd)` when the byte budget would be
exceeded (the C code's safe default). -/
def zxc_read_varint (src : List Nat) (p pEnd : Nat) : Nat × Nat :=
  if p ≥ pEnd then (0, p)
  else
    let b0 := byteAt src p
    if b0 < 128 then (b0, p + 1)
    else if b0 < 192 then
      if p + 1 ≥ pEnd then (0, pEnd)
      else (b0 % 64 + 64 * byteAt src (p + 1), p + 2)
    else if b0 < 224 then
      if p + 2 ≥ pEnd then (0, pEnd)
      else (b0 % 32 + 32 * byteAt src (p + 1) + 8192 * byteAt src (p + 2),
            p + 3)
    else if b0 < 240 then
      if p + 3 ≥ pEnd then (0, pEnd)
      else (b0 % 16 + 16 * byteAt src (p + 1) + 4096 * byteAt src (p + 2) +
              1048576 * byteAt src (p + 3), p + 4)
    else
      if p + 4 ≥ pEnd then (0, pEnd)
      else ((b0 % 8 + 8 * byteAt src (p + 1) + 2048 * byteAt src (p + 2) +
              524288 * byteAt src (p + 3) +
              134217728 * byteAt src (p + 4)) % 2 ^ 32, p + 5)

/-- LZ match replay: append `ml` bytes to `out`, each copied from `off`
positions back.  This is the byte-repeat semantics `d[i] = d[i - off]`
that all four copy strategies of the C decoder (32-byte wild copies,
16-byte wild copies, `memset` for `off == 1`, and the 16-byte shuffle
tiles of `zxc_copy_overlap16` for `2 ≤ off < 16`) implement on the
logical `ml` bytes; the scratch bytes the wild copies write past the
logical end are overwritten by later writes or fall into `ZXC_PAD_SIZE`
headroom and never reach the returned prefix. -/
def lz_match_copy (out : List Nat) (off : Nat) : Nat → List Nat
  | 0 => out
  | k + 1 => lz_match_copy (out ++ [byteAt out (out.length - off)]) off k

/-- The literal-stream RLE expansion loop of `zxc_decode_block_glo`
(zxc_decompress.c, the `enc_lit == 1` branch): `stream` is the on-disk
literal stream, `r` the read index, `w` the bytes written so far, and
`required` the declared decoded size.  A token with bit 7 clear copies
`(low 7 bits) + 1` bytes verbatim; a token with bit 7 set writes
`(low 7 bits) + 4` copies of the next stream byte.  On loop exit the
writer must have produced exactly `required` bytes or the block is
corrupt.  `fuel` only bounds the recursion; every iteration consumes at
least one stream byte, so `stream.length - r + 1` fuel is always
enough. -/
def zxc_glo_rle_loop (fuel : Nat) (stream : List Nat) (r : Nat)
    (w : List Nat) (required : Nat) : Except ZxcErr (List Nat) :=
  match fuel with
  | 0 => .error .corruptData
  | fuel + 1 =>
    if r < stream.length ∧ w.length < required then
      let token := byteAt stream r
      let r' := r + 1
      if token < ZXC_LIT_RLE_FLAG then
        let len := token % 128 + 1
        if w.length + len > required ∨ r' + len > stream.length then
          .error .corruptData
        else
          zxc_glo_rle_loop fuel stream (r' + len)
            (w ++ (stream.drop r').take len) required
      else
        let len := token % 128 + 4
        if w.length + len > required ∨ r' ≥ stream.length then
          .error .corruptData
        else
          zxc_glo_rle_loop fuel stream (r' + 1)
            (w ++ List.replicate len (byteAt stream r')) required
    else
      if w.length ≠ required then .error .corruptData
      else .ok w

/-- Mutable state of the GLO sequence-decoding loops: the token / offset /
extras read indices (absolute in the block payload), the literal read
index (into the literal list), the output produced so far, the validated
byte counter `written`, and the remaining sequence count. -/
structure GloState where
  tIdx : Nat
  oIdx : Nat
  eIdx : Nat
  lIdx : Nat
  out : List Nat
  written : Nat
  nSeq : Nat
  deriving Repr

/-- Literal-length / match-length decoding of one GLO token slot in the
4x-unrolled loops: a nibble of 15 is extended by a prefix-varint from the
extras stream, with the source's overflow checks (`ZXC_ERROR_OVERFLOW`)
on the extended lengths.  Returns `(ll, ml, advanced extras index)`. -/
def glo_slot_lens (src : List Nat) (eEnd litLen lIdx outLen dstCap : Nat)
    (llN mlN : Nat) (eIdx : Nat) : Except ZxcErr (Nat × Nat × Nat) :=
  if llN = ZXC_TOKEN_LL_MASK then
    let v := zxc_read_varint src eIdx eEnd
    let ll := llN + v.1
    if lIdx + ll > litLen ∨ outLen + ll > dstCap then .error .overflowCap
    else if mlN = ZXC_TOKEN_ML_MASK then
      let v2 := zxc_read_varint src v.2 eEnd
      let ml := mlN + v2.1 + ZXC_LZ_MIN_MATCH_LEN
      if outLen + ll + ml > dstCap then .error .overflowCap
      else .ok (ll, ml, v2.2)
    else .ok (ll, mlN + ZXC_LZ_MIN_MATCH_LEN, v.2)
  else
    if mlN = ZXC_TOKEN_ML_MASK then
      let v2 := zxc_read_varint src eIdx eEnd
      let ml := mlN + v2.1 + ZXC_LZ_MIN_MATCH_LEN
      if outLen + llN + ml > dstCap then .error .overflowCap
      else .ok (llN, ml, v2.2)
    else .ok (llN, mlN + ZXC_LZ_MIN_MATCH_LEN, eIdx)

/-- One `DECODE_SEQ_SAFE` expansion (zxc_decompress.c): copy the literal
run, count it into `written`, validate the match offset against `written`
(`ZXC_ERROR_BAD_OFFSET` on violation), then replay the match and count
it.  Returns the new literal index, output, and `written`. -/
def glo_seq_safe (lit : List Nat) (lIdx : Nat) (out : List Nat)
    (written ll ml off : Nat) : Except ZxcErr (Nat × List Nat × Nat) :=
  let out' := out ++ (lit.drop lIdx).take ll
  let written' := written + ll
  if off > written' then .error .badOffset
  else .ok (lIdx + ll, lz_match_copy out' off ml, written' + ml)

/-- One `DECODE_SEQ_FAST` expansion (zxc_decompress.c): copy the literal
run and replay the match with no offset validation and no `written`
bookkeeping.  The C code reads `d_ptr - off` unconditionally here; the
embedding returns the `oobMatchRead` sentinel exactly when that read
would fall before the start of the destination buffer. -/
def glo_seq_fast (lit : List Nat) (lIdx : Nat) (out : List Nat)
    (ll ml off : Nat) : Except ZxcErr (Nat × List Nat) :=
  let out' := out ++ (lit.drop lIdx).take ll
  if off > out'.length then .error .oobMatchRead
  else .ok (lIdx + ll, lz_match_copy out' off ml)

/-- The four biased offsets of one 4x-unrolled GLO iteration: four single
bytes of a 32-bit word when `enc_off = 1`, otherwise four 16-bit halves
of a 64-bit word, each plus `ZXC_LZ_OFFSET_BIAS`. -/
def glo_read_offsets4 (src : List Nat) (encOff : Bool) (oIdx : Nat) :
    Nat × Nat × Nat × Nat :=
  if encOff then
    let w := zxc_le32 src oIdx
    (ZXC_LZ_OFFSET_BIAS + w % 256, ZXC_LZ_OFFSET_BIAS + w / 256 % 256,
     ZXC_LZ_OFFSET_BIAS + w / 65536 % 256,
     ZXC_LZ_OFFSET_BIAS + w / 16777216 % 256)
  else
    let w := zxc_le64 src oIdx
    (ZXC_LZ_OFFSET_BIAS + w % 65536, ZXC_LZ_OFFSET_BIAS + w / 65536 % 65536,
     ZXC_LZ_OFFSET_BIAS + w / 4294967296 % 65536,
     ZXC_LZ_OFFSET_BIAS + w / 281474976710656 % 65536)

/-- One token slot of the safe 4x-unrolled GLO loop: nibble extraction,
varint extension, and `DECODE_SEQ_SAFE`. -/
def glo_safe_slot (src lit : List Nat) (eEnd dstCap : Nat) (st : GloState)
    (llN mlN off : Nat) : Except ZxcErr GloState :=
  match glo_slot_lens src eEnd lit.length st.lIdx st.out.length dstCap
      llN mlN st.eIdx with
  | .error e => .error e
  | .ok (ll, ml, eIdx') =>
    match glo_seq_safe lit st.lIdx st.out st.written ll ml off with
    | .error e => .error e
    | .ok (lIdx', out', written') =>
      .ok { st with eIdx := eIdx', lIdx := lIdx', out := out',
                    written := written' }

/-- One token slot of the fast 4x-unrolled GLO loop: nibble extraction,
varint extension, and `DECODE_SEQ_FAST` (no `written` update). -/
def glo_fast_slot (src lit : List Nat) (eEnd dstCap : Nat) (st : GloState)
    (llN mlN off : Nat) : Except ZxcErr GloState :=
  match glo_slot_lens src eEnd lit.length st.lIdx st.out.length dstCap
      llN mlN st.eIdx with
  | .error e => .error e
  | .ok (ll, ml, eIdx') =>
    match glo_seq_fast lit st.lIdx st.out ll ml off with
    | .error e => .error e
    | .ok (lIdx', out') =>
      .ok { st with eIdx := eIdx', lIdx := lIdx', out := out' }

/-- The safe 4x-unrolled GLO loop (offset validation until `written`
reaches `threshold`): runs while at least 4 sequences remain, the output
is below the 136-byte safety margin, the literal index is below the
4x margin, and `written < threshold`.  Each iteration consumes one
32-bit tokens word and four offsets. -/
def glo_safe4_loop (fuel : Nat) (src lit : List Nat)
    (encOff : Bool) (threshold dEndSafe lEndSafe4 eEnd dstCap : Nat)
    (st : GloState) : Except ZxcErr GloState :=
  match fuel with
  | 0 => .ok st
  | fuel + 1 =>
    if st.nSeq ≥ 4 ∧ st.out.length < dEndSafe ∧ st.lIdx < lEndSafe4 ∧
        st.written < threshold then
      let tokens := zxc_le32 src st.tIdx
      let offs := glo_read_offsets4 src encOff st.oIdx
      let st := { st with tIdx := st.tIdx + 4,
                          oIdx := st.oIdx + (if encOff then 4 else 8) }
      match glo_safe_slot src lit eEnd dstCap st
          (tokens / 16 % 16) (tokens % 16) offs.1 with
      | .error e => .error e
      | .ok st =>
        match glo_safe_slot src lit eEnd dstCap st
            (tokens / 4096 % 16) (tokens / 256 % 16) offs.2.1 with
        | .error e => .error e
        | .ok st =>
          match glo_safe_slot src lit eEnd dstCap st
              (tokens / 1048576 % 16) (tokens / 65536 % 16) offs.2.2.1 with
          | .error e => .error e
          | .ok st =>
            match glo_safe_slot src lit eEnd dstCap st
                (tokens / 268435456 % 16) (tokens / 16777216 % 16)
                offs.2.2.2 with
            | .error e => .error e
            | .ok st =>
              glo_safe4_loop fuel src lit encOff threshold dEndSafe
                lEndSafe4 eEnd dstCap { st with nSeq := st.nSeq - 4 }
    else .ok st

/-- The fast 4x-unrolled GLO loop (no offset validation, used once the
safe loop has stopped): same guards except the `written` test. -/
def glo_fast4_loop (fuel : Nat) (src lit : List Nat)
    (encOff : Bool) (dEndSafe lEndSafe4 eEnd dstCap : Nat)
    (st : GloState) : Except ZxcErr GloState :=
  match fuel with
  | 0 => .ok st
  | fuel + 1 =>
    if st.nSeq ≥ 4 ∧ st.out.length < dEndSafe ∧ st.lIdx < lEndSafe4 then
      let tokens := zxc_le32 src st.tIdx
      let offs := glo_read_offsets4 src encOff st.oIdx
      let st := { st with tIdx := st.tIdx + 4,
                          oIdx := st.oIdx + (if encOff then 4 else 8) }
      match glo_fast_slot src lit eEnd dstCap st
          (tokens / 16 % 16) (tokens % 16) offs.1 with
      | .error e => .error e
      | .ok st =>
        match glo_fast_slot src lit eEnd dstCap st
            (tokens / 4096 % 16) (tokens / 256 % 16) offs.2.1 with
        | .error e => .error e
        | .ok st =>
          match glo_fast_slot src lit eEnd dstCap st
              (tokens / 1048576 % 16) (tokens / 65536 % 16) offs.2.2.1 with
          | .error e => .error e
          | .ok st =>
            match glo_fast_slot src lit eEnd dstCap st
                (tokens / 268435456 % 16) (tokens / 16777216 % 16)
                offs.2.2.2 with
            | .error e => .error e
            | .ok st =>
              glo_fast4_loop fuel src lit encOff dEndSafe
                lEndSafe4 eEnd dstCap { st with nSeq := st.nSeq - 4 }
    else .ok st

/-- The single-sequence fast-path GLO loop: one token per iteration,
still unchecked on the match copy, with pointer save / restore and a
`break` to the safe tail path when a length extension or the wild-copy
margin would overrun.  The instrumented `oobMatchRead` sentinel marks the
unchecked match read (taken only when `written ≥ threshold`, since below
it the explicit `ZXC_ERROR_BAD_OFFSET` check runs first). -/
def glo_one_fast_loop (fuel : Nat) (src lit : List Nat)
    (encOff : Bool) (threshold dEndSafe lEndSafe1 eEnd dstCap : Nat)
    (st : GloState) : Except ZxcErr GloState :=
  match fuel with
  | 0 => .ok st
  | fuel + 1 =>
    if st.nSeq > 0 ∧ st.out.length < dEndSafe ∧ st.lIdx < lEndSafe1 then
      let token := byteAt src st.tIdx
      let tIdx' := st.tIdx + 1
      let ll0 := token / 2 ^ ZXC_TOKEN_LIT_BITS
      let ml0 := token % 16
      let off := ZXC_LZ_OFFSET_BIAS +
        (if encOff then byteAt src st.oIdx else zxc_le16 src st.oIdx)
      let oIdx' := st.oIdx + (if encOff then 1 else 2)
      let llv := if ll0 = ZXC_TOKEN_LL_MASK then
          zxc_read_varint src st.eIdx eEnd else (0, st.eIdx)
      let ll := if ll0 = ZXC_TOKEN_LL_MASK then ll0 + llv.1 else ll0
      if ll0 = ZXC_TOKEN_LL_MASK ∧ st.lIdx + ll > lit.length then
        .ok st
      else
        let mlv := if ml0 = ZXC_TOKEN_ML_MASK then
            zxc_read_varint src llv.2 eEnd else (0, llv.2)
        let ml := (if ml0 = ZXC_TOKEN_ML_MASK then ml0 + mlv.1 else ml0) +
          ZXC_LZ_MIN_MATCH_LEN
        if st.out.length + ll + ml + ZXC_PAD_SIZE > dstCap then
          .ok st
        else
          let out' := st.out ++ (lit.drop st.lIdx).take ll
          let written' := st.written + ll
          if written' < threshold ∧ off > written' then .error .badOffset
          else if off > out'.length then .error .oobMatchRead
          else
            glo_one_fast_loop fuel src lit encOff threshold dEndSafe
              lEndSafe1 eEnd dstCap
              { tIdx := tIdx', oIdx := oIdx', eIdx := mlv.2,
                lIdx := st.lIdx + ll, out := lz_match_copy out' off ml,
                written := written' + ml, nSeq := st.nSeq - 1 }
    else .ok st

/-- The always-checked GLO tail loop for the remaining sequences: exact
copies, explicit `ZXC_ERROR_OVERFLOW` checks on the literal run and
`ZXC_ERROR_BAD_OFFSET` when the match source would fall before the start
of the destination (`match_src < dst`) or the match would overrun it. -/
def glo_tail_loop (fuel : Nat) (src lit : List Nat) (encOff : Bool)
    (eEnd dstCap : Nat) (st : GloState) : Except ZxcErr GloState :=
  match fuel with
  | 0 => .ok st
  | fuel + 1 =>
    if st.nSeq > 0 then
      let token := byteAt src st.tIdx
      let tIdx' := st.tIdx + 1
      let ll0 := token / 2 ^ ZXC_TOKEN_LIT_BITS
      let ml0 := token % 16
      let off := ZXC_LZ_OFFSET_BIAS +
        (if encOff then byteAt src st.oIdx else zxc_le16 src st.oIdx)
      let oIdx' := st.oIdx + (if encOff then 1 else 2)
      let llv := if ll0 = ZXC_TOKEN_LL_MASK then
          zxc_read_varint src st.eIdx eEnd else (0, st.eIdx)
      let ll := if ll0 = ZXC_TOKEN_LL_MASK then ll0 + llv.1 else ll0
      let mlv := if ml0 = ZXC_TOKEN_ML_MASK then
          zxc_read_varint src llv.2 eEnd else (0, llv.2)
      let ml := (if ml0 = ZXC_TOKEN_ML_MASK then ml0 + mlv.1 else ml0) +
        ZXC_LZ_MIN_MATCH_LEN
      if st.out.length + ll > dstCap ∨ st.lIdx + ll > lit.length then
        .error .overflowCap
      else
        let out' := st.out ++ (lit.drop st.lIdx).take ll
        if off > out'.length ∨ out'.length + ml > dstCap then
          .error .badOffset
        else
          glo_tail_loop fuel src lit encOff eEnd dstCap
            { tIdx := tIdx', oIdx := oIdx', eIdx := mlv.2,
              lIdx := st.lIdx + ll, out := lz_match_copy out' off ml,
              written := st.written, nSeq := st.nSeq - 1 }
    else .ok st

/-- `zxc_decode_block_glo` (zxc_decompress.c): full GLO block decode.
`src` is exactly the `comp_size`-byte payload handed over by the chunk
wrapper.  Parses the GLO header and four section descriptors, expands
the literal stream (RLE-encoded when `enc_lit = 1`), validates stream
tiling, then replays the sequences through the safe / fast / tail loops
and copies the trailing literals. -/
def zxc_decode_block_glo (src : List Nat) (dstCap : Nat) :
    Except ZxcErr (List Nat) :=
  if src.length < ZXC_GLO_HEADER_BINARY_SIZE +
      ZXC_GLO_SECTIONS * ZXC_SECTION_DESC_BINARY_SIZE then .error .badHeader
  else
    let nSeq := zxc_le32 src 0
    let encLit := byteAt src 8
    let encOff := byteAt src 11 = 1
    let pData := ZXC_GLO_HEADER_BINARY_SIZE +
      ZXC_GLO_SECTIONS * ZXC_SECTION_DESC_BINARY_SIZE
    let d0 := zxc_le64 src 16
    let litStreamSize := d0 % 2 ^ 32
    let litGo : Except ZxcErr (List Nat) :=
      if encLit = 1 then
        let required := d0 / 2 ^ 32
        if required > 0 then
          if required > dstCap then .error .dstTooSmall
          else if litStreamSize > src.length - pData then .error .corruptData
          else
            zxc_glo_rle_loop (litStreamSize + 1)
              ((src.drop pData).take litStreamSize) 0 [] required
        else .ok []
      else .ok ((src.drop pData).take litStreamSize)
    match litGo with
    | .error e => .error e
    | .ok lit =>
      let pCurr := pData + litStreamSize
      let szTokens := zxc_le64 src 24 % 2 ^ 32
      let szOffsets := zxc_le64 src 32 % 2 ^ 32
      let szExtras := zxc_le64 src 40 % 2 ^ 32
      let expectedOff := if encOff then nSeq else nSeq * 2
      if szTokens < nSeq ∨ szOffsets < expectedOff then .error .corruptData
      else
        let tIdx := pCurr
        let oIdx := tIdx + szTokens
        let eIdx := oIdx + szOffsets
        let eEnd := eIdx + szExtras
        if eEnd ≠ src.length then .error .corruptData
        else
          let dEndSafe := dstCap - 136
          let lEndSafe4 := if lit.length > 56 then lit.length - 56 else 0
          let lEndSafe1 := if lit.length > 14 then lit.length - 14 else 0
          let threshold := if encOff then 256 else 65536
          let st0 : GloState :=
            ⟨tIdx, oIdx, eIdx, 0, [], 0, nSeq⟩
          match glo_safe4_loop (nSeq + 1) src lit encOff threshold dEndSafe
              lEndSafe4 eEnd dstCap st0 with
          | .error e => .error e
          | .ok st =>
            match glo_fast4_loop (nSeq + 1) src lit encOff dEndSafe
                lEndSafe4 eEnd dstCap st with
            | .error e => .error e
            | .ok st =>
              if st.eIdx > eEnd then .error .corruptData
              else
                match glo_one_fast_loop (nSeq + 1) src lit encOff threshold
                    dEndSafe lEndSafe1 eEnd dstCap st with
                | .error e => .error e
                | .ok st =>
                  match glo_tail_loop (nSeq + 1) src lit encOff eEnd
                      dstCap st with
                  | .error e => .error e
                  | .ok st =>
                    if st.lIdx > lit.length then .error .corruptData
                    else
                      let rem := lit.length - st.lIdx
                      if rem > 0 then
                        if st.out.length + rem > dstCap then
                          .error .overflowCap
                        else .ok (st.out ++ lit.drop st.lIdx)
                      else .ok st.out

/-- Mutable state of the GHI sequence-decoding loops: the sequence-word
and extras read indices, the literal read index (absolute in the
payload), the output, the validated byte counter `written`, and the
remaining sequence count. -/
structure GhiState where
  seqIdx : Nat
  eIdx : Nat
  lIdx : Nat
  out : List Nat
  written : Nat
  nSeq : Nat
  deriving Repr

/-- The safe GHI loop (offset validation until `written` reaches the
threshold): parses one 32-bit sequence word `[ll:8][ml:8][off:16]` per
iteration, extends `ll`/`ml` fields of 255 by prefix-varints from the
extras stream, and either falls back to an exact bounds-checked copy
(when the wild-copy margin would overrun) or runs `DECODE_SEQ_SAFE`.
The threshold is `256` when the block header's `enc_off` byte is 1 and
`65536` otherwise, even though GHI offsets are always 16-bit fields. -/
def ghi_safe_loop (fuel : Nat) (src : List Nat)
    (threshold dEndSafe eEnd lEnd dstCap : Nat) (st : GhiState) :
    Except ZxcErr GhiState :=
  match fuel with
  | 0 => .ok st
  | fuel + 1 =>
    if st.nSeq > 0 ∧ st.out.length < dEndSafe ∧ st.written < threshold then
      let seq := zxc_le32 src st.seqIdx
      let seqIdx' := st.seqIdx + 4
      let ll0 := seq / 16777216
      let llv := if ll0 = ZXC_SEQ_LL_MASK then
          zxc_read_varint src st.eIdx eEnd else (0, st.eIdx)
      let ll := if ll0 = ZXC_SEQ_LL_MASK then ll0 + llv.1 else ll0
      let mb := seq / 65536 % 256
      let mlv := if mb = ZXC_SEQ_ML_MASK then
          zxc_read_varint src llv.2 eEnd else (0, llv.2)
      let ml := mb + ZXC_LZ_MIN_MATCH_LEN +
        (if mb = ZXC_SEQ_ML_MASK then mlv.1 else 0)
      let off := seq % 65536 + ZXC_LZ_OFFSET_BIAS
      if st.out.length + ll + ml + ZXC_PAD_SIZE > dstCap then
        if st.out.length + ll > dstCap then .error .overflowCap
        else
          let out' := st.out ++ (src.drop st.lIdx).take ll
          let written' := st.written + ll
          if off > written' ∨ out'.length + ml > dstCap then
            .error .badOffset
          else
            ghi_safe_loop fuel src threshold dEndSafe eEnd lEnd dstCap
              { seqIdx := seqIdx', eIdx := mlv.2, lIdx := st.lIdx + ll,
                out := lz_match_copy out' off ml,
                written := written' + ml, nSeq := st.nSeq - 1 }
      else
        let out' := st.out ++ (src.drop st.lIdx).take ll
        let written' := st.written + ll
        if off > written' then .error .badOffset
        else
          ghi_safe_loop fuel src threshold dEndSafe eEnd lEnd dstCap
            { seqIdx := seqIdx', eIdx := mlv.2, lIdx := st.lIdx + ll,
              out := lz_match_copy out' off ml,
              written := written' + ml, nSeq := st.nSeq - 1 }
    else .ok st

/-- One sequence slot of the fast 4x-unrolled GHI loop: field extraction
and varint extension with the source's `ZXC_ERROR_OVERFLOW` checks, then
`DECODE_SEQ_FAST` with no offset validation and no `written` update; the
`oobMatchRead` sentinel marks the unchecked match read. -/
def ghi_fast_slot (src : List Nat) (eEnd lEnd dstCap : Nat) (st : GhiState)
    (seq : Nat) : Except ZxcErr GhiState :=
  let ll0 := seq / 16777216
  let llv := if ll0 = ZXC_SEQ_LL_MASK then
      zxc_read_varint src st.eIdx eEnd else (0, st.eIdx)
  let ll := if ll0 = ZXC_SEQ_LL_MASK then ll0 + llv.1 else ll0
  if ll0 = ZXC_SEQ_LL_MASK ∧
      (st.lIdx + ll > lEnd ∨ st.out.length + ll > dstCap) then
    .error .overflowCap
  else
    let mb := seq / 65536 % 256
    let mlv := if mb = ZXC_SEQ_ML_MASK then
        zxc_read_varint src llv.2 eEnd else (0, llv.2)
    let ml := mb + ZXC_LZ_MIN_MATCH_LEN +
      (if mb = ZXC_SEQ_ML_MASK then mlv.1 else 0)
    if mb = ZXC_SEQ_ML_MASK ∧ st.out.length + ll + ml > dstCap then
      .error .overflowCap
    else
      let off := seq % 65536 + ZXC_LZ_OFFSET_BIAS
      let out' := st.out ++ (src.drop st.lIdx).take ll
      if off > out'.length then .error .oobMatchRead
      else
        .ok { st with eIdx := mlv.2, lIdx := st.lIdx + ll,
                      out := lz_match_copy out' off ml }

/-- The fast 4x-unrolled GHI loop: four sequence words per iteration,
guarded by the 2112-byte output margin and the 4x literal margin, with
no offset validation. -/
def ghi_fast4_loop (fuel : Nat) (src : List Nat)
    (dEndFast lEndSafe4 eEnd lEnd dstCap : Nat) (st : GhiState) :
    Except ZxcErr GhiState :=
  match fuel with
  | 0 => .ok st
  | fuel + 1 =>
    if st.nSeq ≥ 4 ∧ st.out.length < dEndFast ∧ st.lIdx < lEndSafe4 then
      let s1 := zxc_le32 src st.seqIdx
      let s2 := zxc_le32 src (st.seqIdx + 4)
      let s3 := zxc_le32 src (st.seqIdx + 8)
      let s4 := zxc_le32 src (st.seqIdx + 12)
      let st := { st with seqIdx := st.seqIdx + 16 }
      match ghi_fast_slot src eEnd lEnd dstCap st s1 with
      | .error e => .error e
      | .ok st =>
        match ghi_fast_slot src eEnd lEnd dstCap st s2 with
        | .error e => .error e
        | .ok st =>
          match ghi_fast_slot src eEnd lEnd dstCap st s3 with
          | .error e => .error e
          | .ok st =>
            match ghi_fast_slot src eEnd lEnd dstCap st s4 with
            | .error e => .error e
            | .ok st =>
              ghi_fast4_loop fuel src dEndFast lEndSafe4 eEnd lEnd dstCap
                { st with nSeq := st.nSeq - 4 }
    else .ok st

/-- The single-sequence fast-path GHI loop: unchecked match copies with
state save / restore and a `break` to the tail path when an extended
literal run or the wild-copy margin would overrun; below the threshold
the explicit offset check runs, above it the `oobMatchRead` sentinel
marks the unchecked read. -/
def ghi_one_fast_loop (fuel : Nat) (src : List Nat)
    (threshold dEndSafe lEndSafe1 eEnd lEnd dstCap : Nat) (st : GhiState) :
    Except ZxcErr GhiState :=
  match fuel with
  | 0 => .ok st
  | fuel + 1 =>
    if st.nSeq > 0 ∧ st.out.length < dEndSafe ∧ st.lIdx < lEndSafe1 then
      let seq := zxc_le32 src st.seqIdx
      let seqIdx' := st.seqIdx + 4
      let ll0 := seq / 16777216
      let llv := if ll0 = ZXC_SEQ_LL_MASK then
          zxc_read_varint src st.eIdx eEnd else (0, st.eIdx)
      let ll := if ll0 = ZXC_SEQ_LL_MASK then ll0 + llv.1 else ll0
      if ll0 = ZXC_SEQ_LL_MASK ∧ st.lIdx + ll > lEnd then
        .ok st
      else
        let mb := seq / 65536 % 256
        let mlv := if mb = ZXC_SEQ_ML_MASK then
            zxc_read_varint src llv.2 eEnd else (0, llv.2)
        let ml := mb + ZXC_LZ_MIN_MATCH_LEN +
          (if mb = ZXC_SEQ_ML_MASK then mlv.1 else 0)
        if st.out.length + ll + ml + ZXC_PAD_SIZE > dstCap then
          .ok st
        else
          let off := seq % 65536 + ZXC_LZ_OFFSET_BIAS
          let out' := st.out ++ (src.drop st.lIdx).take ll
          let written' := st.written + ll
          if written' < threshold ∧ off > written' then .error .badOffset
          else if off > out'.length then .error .oobMatchRead
          else
            ghi_one_fast_loop fuel src threshold dEndSafe lEndSafe1 eEnd
              lEnd dstCap
              { seqIdx := seqIdx', eIdx := mlv.2, lIdx := st.lIdx + ll,
                out := lz_match_copy out' off ml,
                written := written' + ml, nSeq := st.nSeq - 1 }
    else .ok st

/-- The always-checked GHI tail loop for the remaining sequences. -/
def ghi_tail_loop (fuel : Nat) (src : List Nat) (eEnd lEnd dstCap : Nat)
    (st : GhiState) : Except ZxcErr GhiState :=
  match fuel with
  | 0 => .ok st
  | fuel + 1 =>
    if st.nSeq > 0 then
      let seq := zxc_le32 src st.seqIdx
      let seqIdx' := st.seqIdx + 4
      let ll0 := seq / 16777216
      let llv := if ll0 = ZXC_SEQ_LL_MASK then
          zxc_read_varint src st.eIdx eEnd else (0, st.eIdx)
      let ll := if ll0 = ZXC_SEQ_LL_MASK then ll0 + llv.1 else ll0
      let mb := seq / 65536 % 256
      let mlv := if mb = ZXC_SEQ_ML_MASK then
          zxc_read_varint src llv.2 eEnd else (0, llv.2)
      let ml := mb + ZXC_LZ_MIN_MATCH_LEN +
        (if mb = ZXC_SEQ_ML_MASK then mlv.1 else 0)
      let off := seq % 65536 + ZXC_LZ_OFFSET_BIAS
      if st.out.length + ll > dstCap ∨ st.lIdx + ll > lEnd then
        .error .overflowCap
      else
        let out' := st.out ++ (src.drop st.lIdx).take ll
        if off > out'.length ∨ out'.length + ml > dstCap then
          .error .badOffset
        else
          ghi_tail_loop fuel src eEnd lEnd dstCap
            { seqIdx := seqIdx', eIdx := mlv.2, lIdx := st.lIdx + ll,
              out := lz_match_copy out' off ml,
              written := st.written, nSeq := st.nSeq - 1 }
    else .ok st

/-- `zxc_decode_block_ghi` (zxc_decompress.c): full GHI block decode.
`src` is exactly the `comp_size`-byte payload.  Parses the GHI header
and three section descriptors (literals, 4-byte sequence words, extras),
validates stream tiling, then replays the sequences through the safe /
fast / tail loops and copies the trailing literals. -/
def zxc_decode_block_ghi (src : List Nat) (dstCap : Nat) :
    Except ZxcErr (List Nat) :=
  if src.length < ZXC_GHI_HEADER_BINARY_SIZE +
      ZXC_GHI_SECTIONS * ZXC_SECTION_DESC_BINARY_SIZE then .error .badHeader
  else
    let nSeq := zxc_le32 src 0
    let encOff := byteAt src 11 = 1
    let pCurr := ZXC_GHI_HEADER_BINARY_SIZE +
      ZXC_GHI_SECTIONS * ZXC_SECTION_DESC_BINARY_SIZE
    let szLit := zxc_le64 src 16 % 2 ^ 32
    let szSeqs := zxc_le64 src 24 % 2 ^ 32
    let szExts := zxc_le64 src 32 % 2 ^ 32
    let lIdx0 := pCurr
    let lEnd := lIdx0 + szLit
    let seqIdx := lEnd
    let eIdx := seqIdx + szSeqs
    let eEnd := eIdx + szExts
    if eEnd ≠ src.length then .error .corruptData
    else
      let dEndSafe := dstCap - ZXC_PAD_SIZE * 4
      let dEndFast := dstCap - ZXC_PAD_SIZE * 66
      let lEndSafe4 := if szLit > 1016 then lEnd - 1016 else lIdx0
      let lEndSafe1 := if szLit > 254 then lEnd - 254 else lIdx0
      let threshold := if encOff then 256 else 65536
      let st0 : GhiState := ⟨seqIdx, eIdx, lIdx0, [], 0, nSeq⟩
      match ghi_safe_loop (nSeq + 1) src threshold dEndSafe eEnd lEnd
          dstCap st0 with
      | .error e => .error e
      | .ok st =>
        match ghi_fast4_loop (nSeq + 1) src dEndFast lEndSafe4 eEnd lEnd
            dstCap st with
        | .error e => .error e
        | .ok st =>
          match ghi_one_fast_loop (nSeq + 1) src threshold dEndSafe
              lEndSafe1 eEnd lEnd dstCap st with
          | .error e => .error e
          | .ok st =>
            match ghi_tail_loop (nSeq + 1) src eEnd lEnd dstCap st with
            | .error e => .error e
            | .ok st =>
              if st.lIdx > lEnd then .error .corruptData
              else
                let rem := lEnd - st.lIdx
                if rem > 0 then
                  if st.out.length + rem > dstCap then .error .overflowCap
                  else .ok (st.out ++ (src.drop st.lIdx).take rem)
                else .ok st.out

/-- Modelled from the spec: the bit-reader state of `zxc_internal.h`
(64-bit accumulator plus a bits-available counter over a bounded byte
stream). -/
structure ZxcBitReader where
  accum : Nat
  bits : Nat
  idx : Nat
  endIdx : Nat
  deriving Repr

/-- Modelled from the spec: `zxc_br_init` preloads 8 bytes when
available, otherwise the valid prefix, into the low accumulator bits. -/
def zxc_br_init (src : List Nat) (start psize : Nat) : ZxcBitReader :=
  let n := min 8 psize
  let accum := (List.range n).foldl
    (fun a k => a + byteAt src (start + k) * 2 ^ (8 * k)) 0
  ⟨accum, 8 * n, start + n, start + psize⟩

/-- Modelled from the spec: one refill step of `zxc_br_ensure`. -/
def zxc_br_refill_step (src : List Nat) (br : ZxcBitReader) : ZxcBitReader :=
  if br.idx < br.endIdx then
    ⟨br.accum + byteAt src br.idx * 2 ^ br.bits, br.bits + 8,
     br.idx + 1, br.endIdx⟩
  else br

/-- Modelled from the spec: `zxc_br_ensure n` refills lazily while fewer
than `n` bits are buffered, never reading past the stream end (at most 8
refill steps are ever needed for `n ≤ 32`). -/
def zxc_br_ensure (src : List Nat) (br : ZxcBitReader) (n : Nat) :
    ZxcBitReader :=
  (List.range 8).foldl
    (fun b _ => if b.bits < n then zxc_br_refill_step src b else b) br

/-- Modelled from the spec: `zxc_br_consume_fast n` returns the low `n`
accumulator bits and shifts them out. -/
def zxc_br_consume_fast (br : ZxcBitReader) (n : Nat) :
    Nat × ZxcBitReader :=
  (br.accum % 2 ^ n, ⟨br.accum / 2 ^ n, br.bits - n, br.idx, br.endIdx⟩)

/-- `zxc_zigzag_decode` (spec §3.5): `(u >> 1) ^ -(u & 1)` in 32-bit
arithmetic. -/
def zxc_zigzag_decode (u : Nat) : Nat :=
  Nat.xor (u / 2 % 2 ^ 32) (if u % 2 = 1 then 2 ^ 32 - 1 else 0)

/-- The value-unpacking inner loop of `zxc_decode_block_num`: unpack
`count` values of `bits` width, ZigZag-decode each to a delta, add it to
the running 32-bit accumulator, and store the result little-endian.  The
SIMD prefix-sum batches of the C code compute exactly these running
sums (the scalar fallback branch is the reference semantics). -/
def zxc_num_unpack (src : List Nat) (bits : Nat) (br : ZxcBitReader)
    (running : Nat) (out : List Nat) : Nat → List Nat × Nat
  | 0 => (out, running)
  | k + 1 =>
    let br' := zxc_br_ensure src br bits
    let c := zxc_br_consume_fast br' bits
    let running' := (running + zxc_zigzag_decode c.1) % 2 ^ 32
    zxc_num_unpack src bits c.2 running' (out ++ zxc_store_le32 running')
      k

/-- The frame loop of `zxc_decode_block_num`: read one 16-byte chunk
header `(nvals, bits, …, psize)` per frame, validate it, and unpack the
frame payload.  The C `while (vals_remaining > 0)` loop advances
`offset` by at least 16 bytes per iteration, so `src.length / 16 + 1`
fuel always suffices; fuel exhaustion (possible in C only for a frame
with `nvals = 0` and `psize = 0`, where the C loop never terminates) is
mapped to `corruptData`. -/
def zxc_num_frame_loop (fuel : Nat) (src : List Nat) (dstCap : Nat)
    (offset valsRem running : Nat) (out : List Nat) :
    Except ZxcErr (List Nat) :=
  match fuel with
  | 0 => .error .corruptData
  | fuel + 1 =>
    if valsRem > 0 then
      if offset + ZXC_NUM_CHUNK_HEADER_SIZE > src.length then
        .error .srcTooSmall
      else
        let nvals := zxc_le16 src offset
        let bits := zxc_le16 src (offset + 2)
        let psize := zxc_le32 src (offset + 12)
        let offset := offset + ZXC_NUM_CHUNK_HEADER_SIZE
        if nvals > valsRem ∨ src.length < offset + psize ∨
            dstCap - out.length < nvals * 4 ∨ bits > 32 then
          .error .corruptData
        else
          let br := zxc_br_init src offset psize
          let r := zxc_num_unpack src bits br running out nvals
          zxc_num_frame_loop fuel src dstCap (offset + psize)
            (valsRem - nvals) r.2 r.1
    else .ok out

/-- `zxc_decode_block_num` (zxc_decompress.c): NUM block decode — parse
the 16-byte NUM header, then run the frame loop. -/
def zxc_decode_block_num (src : List Nat) (dstCap : Nat) :
    Except ZxcErr (List Nat) :=
  if src.length < ZXC_NUM_HEADER_BINARY_SIZE then .error .badHeader
  else
    let nValues := zxc_le64 src 0
    zxc_num_frame_loop (src.length / 16 + 1) src dstCap
      ZXC_NUM_HEADER_BINARY_SIZE nValues 0 []

/-- `zxc_decompress_chunk_wrapper` (zxc_decompress.c): block-level
decode dispatch.  Validates the available source against the block
header's `comp_size` (plus the trailing 4-byte block checksum when the
context has checksums enabled), verifies that checksum, and dispatches
on the block-type byte; an EOF block is `corruptData` here because the
frame loop must consume it, and unknown types are `badBlockType`.
Returns the decoded bytes (the C function returns their count). -/
def zxc_decompress_chunk_wrapper (cksEnabled : Bool) (src : List Nat)
    (dstCap : Nat) : Except ZxcErr (List Nat) :=
  if src.length < ZXC_BLOCK_HEADER_SIZE then .error .srcTooSmall
  else
    let ty := byteAt src 0
    let compSz := zxc_le32 src 3
    let expected := ZXC_BLOCK_HEADER_SIZE + compSz +
      (if cksEnabled then ZXC_BLOCK_CHECKSUM_SIZE else 0)
    if src.length < expected then .error .srcTooSmall
    else
      let data := (src.drop ZXC_BLOCK_HEADER_SIZE).take compSz
      if cksEnabled ∧
          zxc_le32 src (ZXC_BLOCK_HEADER_SIZE + compSz) ≠ zxc_checksum data
        then .error .badChecksum
      else if ty = ZXC_BLOCK_GLO then zxc_decode_block_glo data dstCap
      else if ty = ZXC_BLOCK_GHI then zxc_decode_block_ghi data dstCap
      else if ty = ZXC_BLOCK_RAW then
        if compSz > dstCap then .error .dstTooSmall else .ok data
      else if ty = ZXC_BLOCK_NUM then zxc_decode_block_num data dstCap
      else if ty = ZXC_BLOCK_EOF then .error .corruptData
      else .error .badBlockType

/-- The block loop of `zxc_decompress` (zxc_dispatch.c): parse each
block header (any parse failure surfaces as `badHeader`); on an EOF
block verify the 12-byte footer that follows (declared source size
against bytes written, then — when the caller enabled checksums and the
file header carries the checksum flag — the stored global hash against
the rotate-left-1-XOR accumulator) and stop; on any other block type run
the chunk wrapper, fold the stored block checksum into the global hash,
and advance past header, payload and (when the file has checksums) the
4-byte block checksum.  Every iteration strips at least 8 bytes, so
`rest.length + 1` fuel always suffices; the fuel-exhaustion branch is
unreachable from `zxc_decompress`. -/
def zxc_decomp_loop (fuel : Nat) (rest : List Nat) (out : List Nat)
    (gh : Nat) (fileCks cksEnabled : Bool) (dstCap : Nat) :
    Except ZxcErr (List Nat) :=
  match fuel with
  | 0 => .error .corruptData
  | fuel + 1 =>
    if rest.isEmpty then .ok out
    else
      match zxc_read_block_header rest rest.length with
      | .error _ => .error .badHeader
      | .ok bh =>
        if bh.block_type = ZXC_BLOCK_EOF then
          if rest.length < ZXC_BLOCK_HEADER_SIZE + ZXC_FILE_FOOTER_SIZE then
            .error .srcTooSmall
          else
            let stored := zxc_le64 rest ZXC_BLOCK_HEADER_SIZE
            if stored ≠ out.length then .error .corruptData
            else if cksEnabled ∧ fileCks ∧
                zxc_le32 rest (ZXC_BLOCK_HEADER_SIZE + 8) ≠ gh then
              .error .badChecksum
            else .ok out
        else
          match zxc_decompress_chunk_wrapper (fileCks && cksEnabled) rest
              (dstCap - out.length) with
          | .error e => .error e
          | .ok res =>
            let gh' := if cksEnabled ∧ fileCks then
                zxc_hash_combine_rotate gh
                  (zxc_le32 rest (ZXC_BLOCK_HEADER_SIZE + bh.comp_size))
              else gh
            zxc_decomp_loop fuel
              (rest.drop (ZXC_BLOCK_HEADER_SIZE + bh.comp_size +
                (if fileCks then ZXC_BLOCK_CHECKSUM_SIZE else 0)))
              (out ++ res) gh' fileCks cksEnabled dstCap

/-- `zxc_decompress` (zxc_dispatch.c): one-shot buffer decompression.
Degenerate inputs (null pointers are not representable here; a source
shorter than the 16-byte file header) give `nullInput`; any file-header
validation failure gives `badHeader` (the context initialisation that
shares this branch cannot fail in the model); then the block loop runs
over the remainder.  Returns the decompressed bytes (the C function
returns their count). -/
def zxc_decompress (src : List Nat) (dstCap : Nat) (cksEnabled : Bool) :
    Except ZxcErr (List Nat) :=
  if src.length < ZXC_FILE_HEADER_SIZE then .error .nullInput
  else
    match zxc_read_file_header src src.length with
    | .error _ => .error .badHeader
    | .ok fh =>
      zxc_decomp_loop (src.length + 1) (src.drop ZXC_FILE_HEADER_SIZE) []
        0 fh.2 cksEnabled dstCap

/-- The encoder–container contract for a block encoder `enc` at checksum
flag `c`.  The block encoder (`zxc_compress_chunk_wrapper` of
`zxc_compress.c`) is not in the repository's files, so it is not
modelled here: every theorem that quantifies over compressed archives
takes an arbitrary encoder together with this contract, which any
correct encoder — NUM, GLO, GHI or the RAW fallback — must satisfy.  On
every nonempty chunk of at most one block size, given at least the
capacity the format's RAW fallback needs (spec: an encoded block never
exceeds the raw block, header and optional checksum included), the
encoder emits one block that (i) carries at least the 8-byte block
header, (ii) is no larger than the RAW fallback bound `chunk + 12`, and
(iii) — the format obligation — makes one step of the fully in-tree
decode loop consume exactly the block, append exactly the chunk to the
output, and fold the block's trailing 32-bit checksum word (the same
word `zxc_compress` folds on the write side) into the running global
hash. -/
def zxc_chunk_enc_ok
    (enc : List Nat → Nat → Bool → Except ZxcErr (List Nat))
    (c : Bool) : Prop :=
  ∀ chunk remCap, chunk ≠ [] → chunk.length ≤ ZXC_BLOCK_SIZE →
    ZXC_BLOCK_HEADER_SIZE + chunk.length +
      (if c then ZXC_BLOCK_CHECKSUM_SIZE else 0) ≤ remCap →
    ∃ blk, enc chunk remCap c = .ok blk ∧
      8 ≤ blk.length ∧ blk.length ≤ chunk.length + 12 ∧
      ∀ (f : Nat) (rest out : List Nat) (gh dstCap : Nat),
        out.length + chunk.length ≤ dstCap →
        zxc_decomp_loop (f + 1) (blk ++ rest) out gh c c dstCap =
          zxc_decomp_loop f rest (out ++ chunk)
            (if c then zxc_hash_combine_rotate gh
              (zxc_le32 blk (blk.length - ZXC_BLOCK_CHECKSUM_SIZE))
             else gh) c c dstCap

/-- The block loop of `zxc_compress` (zxc_dispatch.c): hand each
`ZXC_BLOCK_SIZE` slice of the input to the block encoder `enc` (the
absent `zxc_compress_chunk_wrapper`, kept as a parameter) and, when
checksums are enabled and the written block has at least 4 bytes, fold
the little-endian word stored in its last 4 bytes into the global hash
by rotate-left-1 then XOR.  Returns the concatenated block bytes and the
final global hash.  Each iteration consumes at least one input byte, so
`rem.length + 1` fuel always suffices. -/
def zxc_compress_loop
    (enc : List Nat → Nat → Bool → Except ZxcErr (List Nat))
    (fuel : Nat) (rem : List Nat) (remCap : Nat)
    (cks : Bool) (gh : Nat) : Except ZxcErr (List Nat × Nat) :=
  match fuel with
  | 0 => .error .memory
  | fuel + 1 =>
    if rem.isEmpty then .ok ([], gh)
    else
      let chunk := rem.take ZXC_BLOCK_SIZE
      match enc chunk remCap cks with
      | .error e => .error e
      | .ok blk =>
        let gh' := if cks ∧ blk.length ≥ ZXC_BLOCK_CHECKSUM_SIZE then
            zxc_hash_combine_rotate gh
              (zxc_le32 blk (blk.length - ZXC_BLOCK_CHECKSUM_SIZE))
          else gh
        match zxc_compress_loop enc fuel (rem.drop ZXC_BLOCK_SIZE)
            (remCap - blk.length) cks gh' with
        | .error e => .error e
        | .ok (bs, g) => .ok (blk ++ bs, g)

/-- `zxc_compress` (zxc_dispatch.c): one-shot buffer compression, with
the absent block encoder (`zxc_compress_chunk_wrapper`) as the parameter
`enc`.  Degenerate inputs (null pointers are not representable here; an
empty source or a zero destination capacity) give `nullInput` before the
encoder is ever consulted; then the 16-byte file header, the encoded
blocks, the EOF block header and the 12-byte footer (total uncompressed
size and global hash) are emitted with the source's capacity checks.
The compression level is recorded in the context and only steers the
real encoder.  Returns the archive bytes (the C function returns their
count). -/
def zxc_compress
    (enc : List Nat → Nat → Bool → Except ZxcErr (List Nat))
    (src : List Nat) (dstCap : Nat) (level : Nat)
    (cks : Bool) : Except ZxcErr (List Nat) :=
  if src.length = 0 ∨ dstCap = 0 then .error .nullInput
  else
    match zxc_write_file_header dstCap cks with
    | .error e => .error e
    | .ok hdr =>
      match zxc_compress_loop enc (src.length + 1) src
          (dstCap - ZXC_FILE_HEADER_SIZE) cks 0 with
      | .error e => .error e
      | .ok (blocks, gh) =>
        let remCap := dstCap - ZXC_FILE_HEADER_SIZE - blocks.length
        match zxc_write_block_header remCap ZXC_BLOCK_EOF 0 with
        | .error e => .error e
        | .ok eof =>
          if remCap < ZXC_BLOCK_HEADER_SIZE + ZXC_FILE_FOOTER_SIZE then
            .error .dstTooSmall
          else
            match zxc_write_file_footer (remCap - ZXC_BLOCK_HEADER_SIZE)
                src.length gh cks with
            | .error e => .error e
            | .ok footer => .ok (hdr ++ blocks ++ eof ++ footer)

/-- A concrete block encoder with the container shape of the spec's RAW
fallback: the 8-byte RAW block header, the chunk verbatim and — when
checksums are enabled — the trailing 4-byte content checksum, with
`dstTooSmall` when the remaining capacity cannot hold them.  It is not a
model of the absent encoder (the claims quantify over every encoder
satisfying `zxc_chunk_enc_ok`); it only witnesses that the contract is
satisfiable and lets concrete archives be evaluated. -/
def zxc_raw_chunk_enc (chunk : List Nat) (remCap : Nat)
    (cks : Bool) : Except ZxcErr (List Nat) :=
  let need := ZXC_BLOCK_HEADER_SIZE + chunk.length +
    (if cks then ZXC_BLOCK_CHECKSUM_SIZE else 0)
  if remCap < need then .error .dstTooSmall
  else
    .ok (zxc_block_header_bytes ZXC_BLOCK_RAW chunk.length ++ chunk ++
      (if cks then zxc_store_le32 (zxc_checksum chunk) else []))

theorem byteAt_append_add (l₁ l₂ : List Nat) (i : Nat) :
    byteAt (l₁ ++ l₂) (l₁.length + i) = byteAt l₂ i := by
  unfold byteAt
  simp only [List.getD, List.get?_eq_getElem?]
  rw [List.getElem?_append_right (Nat.le_add_right _ _),
    Nat.add_sub_cancel_left]

theorem byteAt_append_left (l₁ l₂ : List Nat) (i : Nat) (h : i < l₁.length) :
    byteAt (l₁ ++ l₂) i = byteAt l₁ i := by
  unfold byteAt
  simp only [List.getD, List.get?_eq_getElem?]
  rw [List.getElem?_append_left h]

theorem zxc_le16_append (l₁ l₂ : List Nat) (i : Nat) :
    zxc_le16 (l₁ ++ l₂) (l₁.length + i) = zxc_le16 l₂ i := by
  unfold zxc_le16
  rw [show l₁.length + i + 1 = l₁.length + (i + 1) by omega,
    byteAt_append_add, byteAt_append_add]

theorem zxc_le32_append (l₁ l₂ : List Nat) (i : Nat) :
    zxc_le32 (l₁ ++ l₂) (l₁.length + i) = zxc_le32 l₂ i := by
  unfold zxc_le32
  rw [show l₁.length + i + 1 = l₁.length + (i + 1) by omega,
    show l₁.length + i + 2 = l₁.length + (i + 2) by omega,
    show l₁.length + i + 3 = l₁.length + (i + 3) by omega,
    byteAt_append_add, byteAt_append_add, byteAt_append_add, byteAt_append_add]

theorem zxc_le64_append (l₁ l₂ : List Nat) (i : Nat) :
    zxc_le64 (l₁ ++ l₂) (l₁.length + i) = zxc_le64 l₂ i := by
  unfold zxc_le64
  rw [show l₁.length + i + 4 = l₁.length + (i + 4) by omega,
    zxc_le32_append, zxc_le32_append]

theorem zxc_le16_store (v : Nat) (rest : List Nat) :
    zxc_le16 (zxc_store_le16 v ++ rest) 0 = v % 2 ^ 16 := by
  simp [zxc_le16, zxc_store_le16, byteAt]
  omega

theorem zxc_le32_store (v : Nat) (rest : List Nat) :
    zxc_le32 (zxc_store_le32 v ++ rest) 0 = v % 2 ^ 32 := by
  simp [zxc_le32, zxc_store_le32, byteAt]
  omega

theorem zxc_le64_store (v : Nat) (rest : List Nat) :
    zxc_le64 (zxc_store_le64 v ++ rest) 0 = v % 2 ^ 64 := by
  unfold zxc_le64 zxc_store_le64
  rw [List.append_assoc, zxc_le32_store,
    show (0 + 4 : Nat) = (zxc_store_le32 v).length + 0 by
      simp [zxc_store_le32],
    zxc_le32_append, zxc_le32_store]
  omega

theorem foldl_lt {m : Nat} (f : Nat → Nat → Nat) (hf : ∀ a b, f a b < m) :
    ∀ (l : List Nat) (a : Nat), a < m → l.foldl f a < m
  | [], _, ha => ha
  | x :: l, a, _ => foldl_lt f hf l (f a x) (hf a x)

theorem zxc_hash8_lt (l : List Nat) : zxc_hash8 l < 256 :=
  foldl_lt _ (fun _ _ => Nat.mod_lt _ (by norm_num)) l 5 (by norm_num)

theorem zxc_hash16_lt (l : List Nat) : zxc_hash16 l < 65536 :=
  foldl_lt _ (fun _ _ => Nat.mod_lt _ (by norm_num)) l 9 (by norm_num)

theorem zxc_checksum_lt (l : List Nat) : zxc_checksum l < 2 ^ 32 :=
  foldl_lt _ (fun _ _ => Nat.mod_lt _ (by norm_num)) l 2166136261 (by norm_num)

theorem rotl32_1_lt (v : Nat) : rotl32_1 v < 2 ^ 32 := by
  unfold rotl32_1
  omega

theorem zxc_hash_combine_rotate_lt (acc h : Nat) :
    zxc_hash_combine_rotate acc h < 2 ^ 32 := by
  unfold zxc_hash_combine_rotate
  exact Nat.xor_lt_two_pow (rotl32_1_lt acc) (Nat.mod_lt _ (by norm_num))

theorem zxc_le16_append_left (l₁ l₂ : List Nat) (i : Nat)
    (h : i + 1 < l₁.length) :
    zxc_le16 (l₁ ++ l₂) i = zxc_le16 l₁ i := by
  unfold zxc_le16
  rw [byteAt_append_left _ _ _ (by omega), byteAt_append_left _ _ _ h]

theorem zxc_le32_append_left (l₁ l₂ : List Nat) (i : Nat)
    (h : i + 3 < l₁.length) :
    zxc_le32 (l₁ ++ l₂) i = zxc_le32 l₁ i := by
  unfold zxc_le32
  rw [byteAt_append_left _ _ _ (by omega), byteAt_append_left _ _ _ (by omega),
    byteAt_append_left _ _ _ (by omega), byteAt_append_left _ _ _ h]

theorem zxc_file_header_bytes_length (c : Bool) :
    (zxc_file_header_bytes c).length = 16 := by
  cases c <;> rfl

theorem zxc_read_file_header_localize (l rest : List Nat)
    (h : l.length = 16) :
    zxc_read_file_header (l ++ rest) (l ++ rest).length =
      zxc_read_file_header l l.length := by
  unfold zxc_read_file_header
  rw [zxc_le32_append_left _ _ _ (by omega),
    zxc_le16_append_left _ _ _ (by omega),
    byteAt_append_left _ _ _ (by omega),
    byteAt_append_left _ _ _ (by omega),
    byteAt_append_left _ _ _ (by omega),
    List.take_append_of_le_length (by omega)]
  have c1 : ¬ ((l ++ rest).length < ZXC_FILE_HEADER_SIZE) := by
    simp only [List.length_append, h, ZXC_FILE_HEADER_SIZE]
    omega
  have c2 : ¬ (l.length < ZXC_FILE_HEADER_SIZE) := by
    simp only [h, ZXC_FILE_HEADER_SIZE]
    omega
  rw [if_neg c1, if_neg c2]

theorem zxc_file_header_bytes_parse (c : Bool) :
    zxc_read_file_header (zxc_file_header_bytes c) 16 =
      .ok (262144, c) := by
  cases c <;> rfl

theorem zxc_read_file_header_roundtrip (c : Bool) (rest : List Nat) :
    zxc_read_file_header (zxc_file_header_bytes c ++ rest)
      (zxc_file_header_bytes c ++ rest).length = .ok (262144, c) := by
  rw [zxc_read_file_header_localize _ _ (zxc_file_header_bytes_length c),
    zxc_file_header_bytes_length c]
  exact zxc_file_header_bytes_parse c

theorem zxc_block_header_bytes_length (t n : Nat) :
    (zxc_block_header_bytes t n).length = 8 := by
  simp [zxc_block_header_bytes, zxc_store_le32]

theorem zxc_read_block_header_roundtrip (t n : Nat) (rest : List Nat)
    (hn : n < 2 ^ 32) :
    zxc_read_block_header (zxc_block_header_bytes t n ++ rest)
      (zxc_block_header_bytes t n ++ rest).length =
      .ok ⟨t % 256, n⟩ := by
  have hlen := zxc_block_header_bytes_length t n
  have hbodyLen : ([t % 256, 0, 0] ++ zxc_store_le32 n : List Nat).length
      = 7 := by simp [zxc_store_le32]
  have hsplit : zxc_block_header_bytes t n ++ rest =
      ([t % 256, 0, 0] ++ zxc_store_le32 n) ++
        ([zxc_hash8 (([t % 256, 0, 0] ++ zxc_store_le32 n) ++ [0])] ++
          rest) := by
    simp [zxc_block_header_bytes]
  unfold zxc_read_block_header
  have c1 : ¬ ((zxc_block_header_bytes t n ++ rest).length <
      ZXC_BLOCK_HEADER_SIZE) := by
    simp only [List.length_append, hlen, ZXC_BLOCK_HEADER_SIZE]
    omega
  rw [if_neg c1]
  have htake : (zxc_block_header_bytes t n ++ rest).take 7 =
      [t % 256, 0, 0] ++ zxc_store_le32 n := by
    rw [hsplit, ← hbodyLen, List.take_left]
  have hcrc : byteAt (zxc_block_header_bytes t n ++ rest) 7 =
      zxc_hash8 (([t % 256, 0, 0] ++ zxc_store_le32 n) ++ [0]) := by
    rw [hsplit, show (7 : Nat) =
        ([t % 256, 0, 0] ++ zxc_store_le32 n : List Nat).length + 0 from
        by rw [hbodyLen], byteAt_append_add]
    show (zxc_hash8 _ :: rest).getD 0 0 % 256 = _
    rw [List.getD_cons_zero]
    exact Nat.mod_eq_of_lt (zxc_hash8_lt _)
  have hty : byteAt (zxc_block_header_bytes t n ++ rest) 0 = t % 256 := by
    rw [hsplit, byteAt_append_left _ _ _ (by omega),
      byteAt_append_left _ _ _ (by simp)]
    show (t % 256 :: _).getD 0 0 % 256 = t % 256
    rw [List.getD_cons_zero]
    omega
  have hcomp : zxc_le32 (zxc_block_header_bytes t n ++ rest) 3 = n := by
    rw [hsplit, List.append_assoc,
      show ([t % 256, 0, 0] ++ zxc_store_le32 n : List Nat) =
        [t % 256, 0, 0] ++ zxc_store_le32 n from rfl,
      List.append_assoc,
      show (3 : Nat) = ([t % 256, 0, 0] : List Nat).length + 0 from by simp,
      zxc_le32_append, zxc_le32_store]
    exact Nat.mod_eq_of_lt hn
  rw [htake, hcrc, hty, hcomp, if_neg (by simp)]

/-- The bytes of one RAW block as emitted by the (spec-modelled) block
encoder: 8-byte header, verbatim payload, optional 4-byte checksum. -/
def zxc_raw_block_bytes (c : Bool) (chunk : List Nat) : List Nat :=
  zxc_block_header_bytes ZXC_BLOCK_RAW chunk.length ++ chunk ++
    (if c then zxc_store_le32 (zxc_checksum chunk) else [])

theorem zxc_raw_block_bytes_length (c : Bool) (chunk : List Nat) :
    (zxc_raw_block_bytes c chunk).length =
      8 + chunk.length + (if c then 4 else 0) := by
  cases c <;>
    simp [zxc_raw_block_bytes, zxc_block_header_bytes, zxc_store_le32] <;>
    omega

theorem zxc_block_header_bytes_byte0 (t n : Nat) (rest : List Nat) :
    byteAt (zxc_block_header_bytes t n ++ rest) 0 = t % 256 := by
  rw [show zxc_block_header_bytes t n ++ rest =
      ([t % 256, 0, 0] ++ zxc_store_le32 n) ++
        ([zxc_hash8 (([t % 256, 0, 0] ++ zxc_store_le32 n) ++ [0])] ++
          rest) from by simp [zxc_block_header_bytes],
    byteAt_append_left _ _ _ (by simp [zxc_store_le32]),
    byteAt_append_left _ _ _ (by simp)]
  show (t % 256 :: _).getD 0 0 % 256 = t % 256
  rw [List.getD_cons_zero]
  omega

theorem zxc_block_header_bytes_le32_3 (t n : Nat) (rest : List Nat)
    (hn : n < 2 ^ 32) :
    zxc_le32 (zxc_block_header_bytes t n ++ rest) 3 = n := by
  rw [show zxc_block_header_bytes t n ++ rest =
      [t % 256, 0, 0] ++ (zxc_store_le32 n ++
        ([zxc_hash8 (([t % 256, 0, 0] ++ zxc_store_le32 n) ++ [0])] ++
          rest)) from by simp [zxc_block_header_bytes],
    show (3 : Nat) = ([t % 256, 0, 0] : List Nat).length + 0 from by simp,
    zxc_le32_append, zxc_le32_store]
  exact Nat.mod_eq_of_lt hn

theorem zxc_block_header_bytes_drop8 (t n : Nat) (rest : List Nat) :
    (zxc_block_header_bytes t n ++ rest).drop 8 = rest := by
  rw [← zxc_block_header_bytes_length t n, List.drop_left]

theorem zxc_chunk_wrapper_raw (c : Bool) (chunk rest : List Nat)
    (dcap : Nat) (hlen : chunk.length < 2 ^ 32)
    (hcap : chunk.length ≤ dcap) :
    zxc_decompress_chunk_wrapper c (zxc_raw_block_bytes c chunk ++ rest)
      dcap = .ok chunk := by
  have hblk := zxc_raw_block_bytes_length c chunk
  have hsplit : zxc_raw_block_bytes c chunk ++ rest =
      zxc_block_header_bytes ZXC_BLOCK_RAW chunk.length ++
        (chunk ++ ((if c then zxc_store_le32 (zxc_checksum chunk) else [])
          ++ rest)) := by
    simp [zxc_raw_block_bytes]
  unfold zxc_decompress_chunk_wrapper
  rw [hsplit, zxc_block_header_bytes_byte0,
    zxc_block_header_bytes_le32_3 _ _ _ hlen]
  have hlen2 : (zxc_block_header_bytes ZXC_BLOCK_RAW chunk.length ++
      (chunk ++ ((if c then zxc_store_le32 (zxc_checksum chunk) else [])
        ++ rest))).length =
      8 + chunk.length + (if c then 4 else 0) + rest.length := by
    cases c <;>
      simp [zxc_block_header_bytes, zxc_store_le32] <;> omega
  rw [if_neg (show ¬ ((zxc_block_header_bytes ZXC_BLOCK_RAW chunk.length ++
      (chunk ++ ((if c then zxc_store_le32 (zxc_checksum chunk) else [])
        ++ rest))).length < ZXC_BLOCK_HEADER_SIZE) from by
    rw [hlen2]; unfold ZXC_BLOCK_HEADER_SIZE; omega)]
  rw [if_neg (show ¬ ((zxc_block_header_bytes ZXC_BLOCK_RAW chunk.length ++
      (chunk ++ ((if c then zxc_store_le32 (zxc_checksum chunk) else [])
        ++ rest))).length < ZXC_BLOCK_HEADER_SIZE + chunk.length +
        (if c then ZXC_BLOCK_CHECKSUM_SIZE else 0)) from by
    rw [hlen2]; unfold ZXC_BLOCK_HEADER_SIZE ZXC_BLOCK_CHECKSUM_SIZE
    cases c <;> simp <;> omega)]
  have hdata : ((zxc_block_header_bytes ZXC_BLOCK_RAW chunk.length ++
      (chunk ++ ((if c then zxc_store_le32 (zxc_checksum chunk) else [])
        ++ rest))).drop ZXC_BLOCK_HEADER_SIZE).take chunk.length =
      chunk := by
    show ((zxc_block_header_bytes ZXC_BLOCK_RAW chunk.length ++
      (chunk ++ _)).drop 8).take chunk.length = chunk
    rw [zxc_block_header_bytes_drop8, List.take_left]
  rw [hdata]
  have hcks : ¬ (c = true ∧
      zxc_le32 (zxc_block_header_bytes ZXC_BLOCK_RAW chunk.length ++
        (chunk ++ ((if c then zxc_store_le32 (zxc_checksum chunk) else [])
          ++ rest))) (ZXC_BLOCK_HEADER_SIZE + chunk.length) ≠
        zxc_checksum chunk) := by
    cases c
    · simp
    · simp only [if_true, reduceIte]
      intro hcon
      apply hcon.2
      have hre : zxc_block_header_bytes ZXC_BLOCK_RAW chunk.length ++
          (chunk ++ (zxc_store_le32 (zxc_checksum chunk) ++ rest)) =
          (zxc_block_header_bytes ZXC_BLOCK_RAW chunk.length ++ chunk) ++
            (zxc_store_le32 (zxc_checksum chunk) ++ rest) := by
        simp
      have hidx : ZXC_BLOCK_HEADER_SIZE + chunk.length =
          (zxc_block_header_bytes ZXC_BLOCK_RAW chunk.length ++
            chunk).length + 0 := by
        simp [zxc_block_header_bytes_length, ZXC_BLOCK_HEADER_SIZE]
      rw [hre, hidx, zxc_le32_append, zxc_le32_store]
      exact Nat.mod_eq_of_lt (zxc_checksum_lt chunk)
  rw [if_neg hcks]
  rw [if_neg (show ¬ ((ZXC_BLOCK_RAW % 256 : Nat) = ZXC_BLOCK_GLO) from by
      decide),
    if_neg (show ¬ ((ZXC_BLOCK_RAW % 256 : Nat) = ZXC_BLOCK_GHI) from by
      decide),
    if_pos (show (ZXC_BLOCK_RAW % 256 : Nat) = ZXC_BLOCK_RAW from by
      decide),
    if_neg (show ¬ (chunk.length > dcap) from by omega)]

theorem zxc_raw_block_bytes_cks_read (chunk rest : List Nat) :
    zxc_le32 (zxc_raw_block_bytes true chunk ++ rest)
      (ZXC_BLOCK_HEADER_SIZE + chunk.length) = zxc_checksum chunk := by
  have hre : zxc_raw_block_bytes true chunk ++ rest =
      (zxc_block_header_bytes ZXC_BLOCK_RAW chunk.length ++ chunk) ++
        (zxc_store_le32 (zxc_checksum chunk) ++ rest) := by
    simp [zxc_raw_block_bytes]
  have hidx : ZXC_BLOCK_HEADER_SIZE + chunk.length =
      (zxc_block_header_bytes ZXC_BLOCK_RAW chunk.length ++
        chunk).length + 0 := by
    simp [zxc_block_header_bytes_length, ZXC_BLOCK_HEADER_SIZE]
  rw [hre, hidx, zxc_le32_append, zxc_le32_store]
  exact Nat.mod_eq_of_lt (zxc_checksum_lt chunk)

theorem zxc_decomp_loop_raw_step (f : Nat) (c : Bool)
    (chunk rest out : List Nat) (gh dstCap : Nat)
    (hlen : chunk.length < 2 ^ 32)
    (hcap : out.length + chunk.length ≤ dstCap) :
    zxc_decomp_loop (f + 1) (zxc_raw_block_bytes c chunk ++ rest) out gh
      c c dstCap =
    zxc_decomp_loop f rest (out ++ chunk)
      (if c then zxc_hash_combine_rotate gh (zxc_checksum chunk) else gh)
      c c dstCap := by
  have hblkLen := zxc_raw_block_bytes_length c chunk
  have hne : ¬ ((zxc_raw_block_bytes c chunk ++ rest).isEmpty = true) := by
    simp only [List.isEmpty_eq_true]
    intro hnil
    have hl := congrArg List.length hnil
    rw [List.length_append, hblkLen] at hl
    cases c <;> simp at hl
  have hsplit : zxc_raw_block_bytes c chunk ++ rest =
      zxc_block_header_bytes ZXC_BLOCK_RAW chunk.length ++
        (chunk ++ ((if c then zxc_store_le32 (zxc_checksum chunk) else [])
          ++ rest)) := by
    simp [zxc_raw_block_bytes]
  have hbh : zxc_read_block_header (zxc_raw_block_bytes c chunk ++ rest)
      (zxc_raw_block_bytes c chunk ++ rest).length =
      .ok ⟨1, chunk.length⟩ := by
    rw [hsplit, zxc_read_block_header_roundtrip _ _ _ hlen]
    rfl
  have hwrap : zxc_decompress_chunk_wrapper (c && c)
      (zxc_raw_block_bytes c chunk ++ rest) (dstCap - out.length) =
      .ok chunk := by
    rw [Bool.and_self]
    exact zxc_chunk_wrapper_raw c chunk rest _ hlen (by omega)
  simp only [zxc_decomp_loop]
  rw [if_neg hne, hbh]
  simp only []
  rw [if_neg (show ¬ ((1 : Nat) = ZXC_BLOCK_EOF) from by decide), hwrap]
  simp only []
  have hghEq : (if c = true ∧ c = true then
      zxc_hash_combine_rotate gh
        (zxc_le32 (zxc_raw_block_bytes c chunk ++ rest)
          (ZXC_BLOCK_HEADER_SIZE + chunk.length))
    else gh) =
      (if c then zxc_hash_combine_rotate gh (zxc_checksum chunk)
       else gh) := by
    cases c
    · simp
    · simp only [and_self, if_true, reduceIte]
      rw [zxc_raw_block_bytes_cks_read]
  have hdrop : (zxc_raw_block_bytes c chunk ++ rest).drop
      (ZXC_BLOCK_HEADER_SIZE + chunk.length +
        (if c = true then ZXC_BLOCK_CHECKSUM_SIZE else 0)) = rest := by
    rw [show ZXC_BLOCK_HEADER_SIZE + chunk.length +
        (if c = true then ZXC_BLOCK_CHECKSUM_SIZE else 0) =
        (zxc_raw_block_bytes c chunk).length from by
      rw [hblkLen]; unfold ZXC_BLOCK_HEADER_SIZE ZXC_BLOCK_CHECKSUM_SIZE
      cases c <;> simp]
    exact List.drop_left _ _
  rw [hghEq, hdrop]

theorem zxc_raw_chunk_enc_ok (c : Bool) :
    zxc_chunk_enc_ok zxc_raw_chunk_enc c := by
  intro chunk remCap hne hlen hcap
  have hlen32 : chunk.length < 2 ^ 32 := by
    unfold ZXC_BLOCK_SIZE at hlen
    omega
  refine ⟨zxc_raw_block_bytes c chunk, ?_, ?_, ?_, ?_⟩
  · simp only [zxc_raw_chunk_enc]
    rw [if_neg (Nat.not_lt.mpr hcap)]
    rfl
  · rw [zxc_raw_block_bytes_length]
    omega
  · rw [zxc_raw_block_bytes_length]
    have hk4 : (if c = true then 4 else 0) ≤ 4 := by cases c <;> simp
    omega
  · intro f rest out gh dstCap hdc
    have hW : (if c = true then zxc_hash_combine_rotate gh
        (zxc_le32 (zxc_raw_block_bytes c chunk)
          ((zxc_raw_block_bytes c chunk).length -
            ZXC_BLOCK_CHECKSUM_SIZE)) else gh) =
        (if c = true then zxc_hash_combine_rotate gh
          (zxc_checksum chunk) else gh) := by
      cases c
      · rfl
      · have hi4 : (if true = true then 4 else 0 : Nat) = 4 := rfl
        have hrl : (zxc_raw_block_bytes true chunk).length =
            12 + chunk.length := by
          rw [zxc_raw_block_bytes_length, hi4]
          omega
        have hidx : (zxc_raw_block_bytes true chunk).length -
            ZXC_BLOCK_CHECKSUM_SIZE =
            ZXC_BLOCK_HEADER_SIZE + chunk.length := by
          rw [hrl]
          simp only [ZXC_BLOCK_CHECKSUM_SIZE, ZXC_BLOCK_HEADER_SIZE]
          omega
        have hcread := zxc_raw_block_bytes_cks_read chunk []
        rw [List.append_nil] at hcread
        rw [hidx, hcread]
    rw [zxc_decomp_loop_raw_step f c chunk rest out gh dstCap hlen32 hdc,
      hW]

theorem zxc_decomp_loop_nil (f : Nat) (out : List Nat) (gh : Nat)
    (a b : Bool) (dcap : Nat) :
    zxc_decomp_loop (f + 1) [] out gh a b dcap = .ok out := by
  simp [zxc_decomp_loop]

theorem zxc_decomp_loop_eof (f : Nat) (rest' out : List Nat) (gh : Nat)
    (fileCks cksEnabled : Bool) (dstCap : Nat)
    (h12 : 12 ≤ rest'.length) :
    zxc_decomp_loop (f + 1)
      (zxc_block_header_bytes ZXC_BLOCK_EOF 0 ++ rest') out gh fileCks
      cksEnabled dstCap =
      (if zxc_le64 rest' 0 ≠ out.length then .error .corruptData
       else if cksEnabled ∧ fileCks ∧ zxc_le32 rest' 8 ≠ gh then
         .error .badChecksum
       else .ok out) := by
  have hhl := zxc_block_header_bytes_length ZXC_BLOCK_EOF 0
  have hne : ¬ ((zxc_block_header_bytes ZXC_BLOCK_EOF 0 ++ rest').isEmpty
      = true) := by
    simp only [List.isEmpty_eq_true]
    intro hnil
    have hl := congrArg List.length hnil
    rw [List.length_append, hhl] at hl
    simp at hl
  have hbh : zxc_read_block_header
      (zxc_block_header_bytes ZXC_BLOCK_EOF 0 ++ rest')
      (zxc_block_header_bytes ZXC_BLOCK_EOF 0 ++ rest').length =
      .ok ⟨255, 0⟩ := by
    rw [zxc_read_block_header_roundtrip _ _ _ (by norm_num)]
    rfl
  simp only [zxc_decomp_loop]
  rw [if_neg hne, hbh]
  simp only []
  rw [if_pos (show (255 : Nat) = ZXC_BLOCK_EOF from rfl)]
  rw [if_neg (show ¬ ((zxc_block_header_bytes ZXC_BLOCK_EOF 0 ++
      rest').length < ZXC_BLOCK_HEADER_SIZE + ZXC_FILE_FOOTER_SIZE) from by
    rw [List.length_append, hhl]
    unfold ZXC_BLOCK_HEADER_SIZE ZXC_FILE_FOOTER_SIZE
    omega)]
  rw [show (ZXC_BLOCK_HEADER_SIZE : Nat) =
      (zxc_block_header_bytes ZXC_BLOCK_EOF 0).length + 0 from by
    rw [hhl]; rfl, zxc_le64_append]
  rw [show (zxc_block_header_bytes ZXC_BLOCK_EOF 0).length + 0 + 8 =
      (zxc_block_header_bytes ZXC_BLOCK_EOF 0).length + 8 from by omega,
    zxc_le32_append]

theorem zxc_decomp_loop_eof_short (f : Nat) (rest' out : List Nat)
    (gh : Nat) (fileCks cksEnabled : Bool) (dstCap : Nat)
    (h12 : rest'.length < 12) :
    zxc_decomp_loop (f + 1)
      (zxc_block_header_bytes ZXC_BLOCK_EOF 0 ++ rest') out gh fileCks
      cksEnabled dstCap = .error .srcTooSmall := by
  have hhl := zxc_block_header_bytes_length ZXC_BLOCK_EOF 0
  have hne : ¬ ((zxc_block_header_bytes ZXC_BLOCK_EOF 0 ++ rest').isEmpty
      = true) := by
    simp only [List.isEmpty_eq_true]
    intro hnil
    have hl := congrArg List.length hnil
    rw [List.length_append, hhl] at hl
    simp at hl
  have hbh : zxc_read_block_header
      (zxc_block_header_bytes ZXC_BLOCK_EOF 0 ++ rest')
      (zxc_block_header_bytes ZXC_BLOCK_EOF 0 ++ rest').length =
      .ok ⟨255, 0⟩ := by
    rw [zxc_read_block_header_roundtrip _ _ _ (by norm_num)]
    rfl
  simp only [zxc_decomp_loop]
  rw [if_neg hne, hbh]
  simp only []
  rw [if_pos (show (255 : Nat) = ZXC_BLOCK_EOF from rfl)]
  rw [if_pos (show (zxc_block_header_bytes ZXC_BLOCK_EOF 0 ++
      rest').length < ZXC_BLOCK_HEADER_SIZE + ZXC_FILE_FOOTER_SIZE from by
    rw [List.length_append, hhl]
    unfold ZXC_BLOCK_HEADER_SIZE ZXC_FILE_FOOTER_SIZE
    omega)]

theorem zxc_decomp_loop_short_header (f : Nat) (rest out : List Nat)
    (gh : Nat) (fileCks cksEnabled : Bool) (dstCap : Nat)
    (h0 : rest ≠ []) (h8 : rest.length < 8) :
    zxc_decomp_loop (f + 1) rest out gh fileCks cksEnabled dstCap =
      .error .badHeader := by
  simp only [zxc_decomp_loop]
  rw [if_neg (by simp only [List.isEmpty_eq_true]; exact h0)]
  rw [show zxc_read_block_header rest rest.length =
      .error .srcTooSmall from by
    unfold zxc_read_block_header
    rw [if_pos (show rest.length < ZXC_BLOCK_HEADER_SIZE from by
      unfold ZXC_BLOCK_HEADER_SIZE; omega)]]

/-- Number of `ZXC_BLOCK_SIZE` blocks the one-shot compressor emits for
an `n`-byte input (`⌈n / ZXC_BLOCK_SIZE⌉`). -/
def zxc_chunk_count (n : Nat) : Nat :=
  (n + ZXC_BLOCK_SIZE - 1) / ZXC_BLOCK_SIZE

theorem zxc_chunk_count_zero : zxc_chunk_count 0 = 0 := by
  unfold zxc_chunk_count ZXC_BLOCK_SIZE
  norm_num

theorem zxc_chunk_count_succ (n : Nat) (h : 0 < n) :
    zxc_chunk_count n = zxc_chunk_count (n - ZXC_BLOCK_SIZE) + 1 := by
  unfold zxc_chunk_count ZXC_BLOCK_SIZE
  omega

theorem zxc_chunk_count_pos (n : Nat) (h : 0 < n) :
    0 < zxc_chunk_count n := by
  unfold zxc_chunk_count ZXC_BLOCK_SIZE
  omega

theorem zxc_roundtrip_loop
    (enc : List Nat → Nat → Bool → Except ZxcErr (List Nat))
    (c : Bool) (henc : zxc_chunk_enc_ok enc c) (fuel : Nat) :
    ∀ (rem : List Nat) (remCap gh : Nat),
      rem.length < fuel →
      rem.length + 12 * zxc_chunk_count rem.length ≤ remCap →
      ∃ blocks ghOut,
        zxc_compress_loop enc fuel rem remCap c gh =
          .ok (blocks, ghOut) ∧
        blocks.length ≤ rem.length + 12 * zxc_chunk_count rem.length ∧
        zxc_chunk_count rem.length ≤ blocks.length ∧
        (gh < 2 ^ 32 → ghOut < 2 ^ 32) ∧
        (∀ (f : Nat) (rest out : List Nat) (dstCap : Nat),
          out.length + rem.length ≤ dstCap →
          zxc_decomp_loop (zxc_chunk_count rem.length + f)
            (blocks ++ rest) out gh c c dstCap =
          zxc_decomp_loop f rest (out ++ rem) ghOut c c dstCap) := by
  induction fuel with
  | zero =>
    intro rem remCap gh hf _
    omega
  | succ fu ih =>
    intro rem remCap gh hf hcap
    by_cases hrem : rem = []
    · subst hrem
      refine ⟨[], gh, ?_, ?_, ?_, fun h => h, ?_⟩
      · simp [zxc_compress_loop]
      · simp [zxc_chunk_count_zero]
      · simp [zxc_chunk_count_zero]
      · intro f rest out dstCap _
        simp [zxc_chunk_count_zero]
    · have hpos : 0 < rem.length := List.length_pos.mpr hrem
      have hremne : ¬ (rem.isEmpty = true) := by
        simp only [List.isEmpty_eq_true]
        exact hrem
      have hk4 : (if c = true then 4 else 0) ≤ 4 := by cases c <;> simp
      have hchunkLen : (rem.take ZXC_BLOCK_SIZE).length =
          min 262144 rem.length := by
        rw [List.length_take]
        rfl
      have hdropLen : (rem.drop ZXC_BLOCK_SIZE).length =
          rem.length - 262144 := by
        rw [List.length_drop]
        rfl
      have hcnt : zxc_chunk_count rem.length =
          zxc_chunk_count (rem.length - 262144) + 1 :=
        zxc_chunk_count_succ rem.length hpos
      have hcntpos := zxc_chunk_count_pos rem.length hpos
      have hchunkne : rem.take ZXC_BLOCK_SIZE ≠ [] := by
        intro hnil
        have hl := congrArg List.length hnil
        rw [hchunkLen] at hl
        simp only [List.length_nil] at hl
        omega
      obtain ⟨blk, hENC, hblk8, hblkLe, hstep⟩ :=
        henc (rem.take ZXC_BLOCK_SIZE) remCap hchunkne
          (by rw [hchunkLen]; unfold ZXC_BLOCK_SIZE; omega)
          (by unfold ZXC_BLOCK_HEADER_SIZE ZXC_BLOCK_CHECKSUM_SIZE
              rw [hchunkLen]
              omega)
      have hghs : (if c = true ∧
          blk.length ≥ ZXC_BLOCK_CHECKSUM_SIZE then
          zxc_hash_combine_rotate gh
            (zxc_le32 blk (blk.length - ZXC_BLOCK_CHECKSUM_SIZE))
        else gh) =
          (if c = true then zxc_hash_combine_rotate gh
            (zxc_le32 blk (blk.length - ZXC_BLOCK_CHECKSUM_SIZE))
           else gh) := by
        cases c
        · simp
        · rw [if_pos ⟨rfl,
            show blk.length ≥ ZXC_BLOCK_CHECKSUM_SIZE from by
              unfold ZXC_BLOCK_CHECKSUM_SIZE
              omega⟩, if_pos rfl]
      obtain ⟨blocks', ghOut, hcl, hbl, hblc, hgb, hde⟩ :=
        ih (rem.drop ZXC_BLOCK_SIZE) (remCap - blk.length)
          (if c = true then zxc_hash_combine_rotate gh
            (zxc_le32 blk (blk.length - ZXC_BLOCK_CHECKSUM_SIZE))
           else gh)
          (by rw [hdropLen]; omega)
          (by rw [hdropLen]
              rw [show zxc_chunk_count (rem.length - 262144) =
                zxc_chunk_count rem.length - 1 from by rw [hcnt]; omega]
              rw [hchunkLen] at hblkLe
              omega)
      rw [hdropLen] at hbl hblc hde
      refine ⟨blk ++ blocks', ghOut, ?_, ?_, ?_, ?_, ?_⟩
      · simp only [zxc_compress_loop]
        rw [if_neg hremne, hENC]
        simp only []
        rw [hghs, hcl]
      · rw [List.length_append, hcnt]
        rw [hchunkLen] at hblkLe
        omega
      · rw [List.length_append, hcnt]
        omega
      · intro hgh32
        apply hgb
        cases c
        · exact hgh32
        · exact zxc_hash_combine_rotate_lt _ _
      · intro f rest out dstCap hdc
        rw [hcnt, List.append_assoc,
          show zxc_chunk_count (rem.length - 262144) + 1 + f =
            (zxc_chunk_count (rem.length - 262144) + f) + 1 from by
            omega,
          hstep (zxc_chunk_count (rem.length - 262144) + f)
            (blocks' ++ rest) out gh dstCap
            (by rw [hchunkLen]; omega)]
        rw [hde f rest (out ++ rem.take ZXC_BLOCK_SIZE) dstCap
          (by rw [List.length_append, hchunkLen]; omega)]
        rw [List.append_assoc, List.take_append_drop]

theorem zxc_compress_builds
    (enc : List Nat → Nat → Bool → Except ZxcErr (List Nat))
    (X : List Nat) (lvl : Nat) (c : Bool)
    (ccap : Nat) (henc : zxc_chunk_enc_ok enc c) (hne : X ≠ [])
    (hcap : 36 + X.length + 12 * zxc_chunk_count X.length ≤ ccap) :
    ∃ blocks ghOut,
      zxc_compress enc X ccap lvl c = .ok
        (zxc_file_header_bytes c ++ blocks ++
          zxc_block_header_bytes ZXC_BLOCK_EOF 0 ++
          (zxc_store_le64 X.length ++
            (if c then zxc_store_le32 ghOut else [0, 0, 0, 0]))) ∧
      ghOut < 2 ^ 32 ∧
      blocks.length ≤ X.length + 12 * zxc_chunk_count X.length ∧
      zxc_chunk_count X.length ≤ blocks.length ∧
      (∀ (f : Nat) (rest out : List Nat) (dstCap : Nat),
        out.length + X.length ≤ dstCap →
        zxc_decomp_loop (zxc_chunk_count X.length + f) (blocks ++ rest)
          out 0 c c dstCap =
        zxc_decomp_loop f rest (out ++ X) ghOut c c dstCap) := by
  have hpos : 0 < X.length := List.length_pos.mpr hne
  obtain ⟨blocks, ghOut, hcl, hblLe, hblGe, hgb, hde⟩ :=
    zxc_roundtrip_loop enc c henc (X.length + 1) X
      (ccap - ZXC_FILE_HEADER_SIZE) 0
      (by omega)
      (by unfold ZXC_FILE_HEADER_SIZE; omega)
  refine ⟨blocks, ghOut, ?_, hgb (by norm_num), hblLe, hblGe, hde⟩
  unfold zxc_compress
  rw [if_neg (show ¬ (X.length = 0 ∨ ccap = 0) from by
    push_neg
    omega)]
  rw [show zxc_write_file_header ccap c = .ok (zxc_file_header_bytes c)
    from by
      unfold zxc_write_file_header
      rw [if_neg (show ¬ (ccap < ZXC_FILE_HEADER_SIZE) from by
        unfold ZXC_FILE_HEADER_SIZE; omega)]]
  simp only []
  rw [hcl]
  simp only []
  rw [show zxc_write_block_header
      (ccap - ZXC_FILE_HEADER_SIZE - blocks.length) ZXC_BLOCK_EOF 0 =
      .ok (zxc_block_header_bytes ZXC_BLOCK_EOF 0) from by
    unfold zxc_write_block_header
    rw [if_neg (show ¬ (ccap - ZXC_FILE_HEADER_SIZE - blocks.length <
        ZXC_BLOCK_HEADER_SIZE) from by
      unfold ZXC_FILE_HEADER_SIZE ZXC_BLOCK_HEADER_SIZE
      omega)]]
  simp only []
  rw [if_neg (show ¬ (ccap - ZXC_FILE_HEADER_SIZE - blocks.length <
      ZXC_BLOCK_HEADER_SIZE + ZXC_FILE_FOOTER_SIZE) from by
    unfold ZXC_FILE_HEADER_SIZE ZXC_BLOCK_HEADER_SIZE ZXC_FILE_FOOTER_SIZE
    omega)]
  rw [show zxc_write_file_footer
      (ccap - ZXC_FILE_HEADER_SIZE - blocks.length - ZXC_BLOCK_HEADER_SIZE)
      X.length ghOut c =
      .ok (zxc_store_le64 X.length ++
        (if c then zxc_store_le32 ghOut else [0, 0, 0, 0])) from by
    unfold zxc_write_file_footer
    rw [if_neg (show ¬ (ccap - ZXC_FILE_HEADER_SIZE - blocks.length -
        ZXC_BLOCK_HEADER_SIZE < ZXC_FILE_FOOTER_SIZE) from by
      unfold ZXC_FILE_HEADER_SIZE ZXC_BLOCK_HEADER_SIZE ZXC_FILE_FOOTER_SIZE
      omega)]]

theorem zxc_decompress_walk (c : Bool) (blocks tail X : List Nat)
    (dcap ghOut : Nat)
    (hwalk : ∀ (f : Nat) (rest out : List Nat) (dstCap : Nat),
        out.length + X.length ≤ dstCap →
        zxc_decomp_loop (zxc_chunk_count X.length + f) (blocks ++ rest)
          out 0 c c dstCap =
        zxc_decomp_loop f rest (out ++ X) ghOut c c dstCap)
    (hblocks : zxc_chunk_count X.length ≤ blocks.length)
    (hdcap : X.length ≤ dcap) :
    ∃ f, zxc_decompress (zxc_file_header_bytes c ++ blocks ++ tail) dcap c
      = zxc_decomp_loop (f + 1) tail X ghOut c c dcap := by
  have hhl := zxc_file_header_bytes_length c
  refine ⟨16 + blocks.length + tail.length - zxc_chunk_count X.length,
    ?_⟩
  unfold zxc_decompress
  rw [List.append_assoc]
  rw [if_neg (show ¬ ((zxc_file_header_bytes c ++
      (blocks ++ tail)).length < ZXC_FILE_HEADER_SIZE) from by
    simp only [List.length_append, hhl, ZXC_FILE_HEADER_SIZE]
    omega)]
  rw [zxc_read_file_header_roundtrip c (blocks ++ tail)]
  simp only []
  rw [show (ZXC_FILE_HEADER_SIZE : Nat) = (zxc_file_header_bytes c).length
    from by rw [hhl]; rfl, List.drop_left]
  rw [show (zxc_file_header_bytes c ++ (blocks ++ tail)).length + 1 =
      zxc_chunk_count X.length +
        (16 + blocks.length + tail.length - zxc_chunk_count X.length +
          1) from by
    simp only [List.length_append, hhl]
    omega]
  rw [hwalk _ tail [] dcap (by simpa using hdcap)]
  simp only [List.nil_append]

/-- C1 (amended): for every block encoder satisfying the
encoder–container contract (the absent `zxc_compress.c` is not
modelled; the contract only demands that each emitted block decode back
to its chunk through the in-tree block decoders), every nonempty byte
buffer `X` (the empty buffer is rejected with `NULL_INPUT`, see the
counterexample), every compression level in 1..5 and every checksum
flag, one-shot decompression of the output of one-shot compression of
`X` (with the same checksum flag, and with sufficient destination
capacities) succeeds and returns exactly `X`.  The frame layer,
header/footer verification and global-hash accumulation are the
source's. -/
theorem zxc_claim_c1
    (enc : List Nat → Nat → Bool → Except ZxcErr (List Nat))
    (X : List Nat) (lvl : Nat) (c : Bool)
    (ccap dcap : Nat) (henc : zxc_chunk_enc_ok enc c)
    (hne : X ≠ []) (hX : X.length < 2 ^ 64)
    (hlvl1 : 1 ≤ lvl) (hlvl5 : lvl ≤ 5)
    (hccap : 36 + X.length + 12 * zxc_chunk_count X.length ≤ ccap)
    (hdcap : X.length ≤ dcap) :
    ∃ arch, zxc_compress enc X ccap lvl c = .ok arch ∧
      zxc_decompress arch dcap c = .ok X := by
  obtain ⟨blocks, ghOut, hcmp, hgh, hble, hbge, hwalk⟩ :=
    zxc_compress_builds enc X lvl c ccap henc hne hccap
  refine ⟨_, hcmp, ?_⟩
  have hflen : (zxc_store_le64 X.length ++
      (if c then zxc_store_le32 ghOut else [0, 0, 0, 0])).length = 12 := by
    cases c <;> simp [zxc_store_le64, zxc_store_le32]
  have hle64 : zxc_le64 (zxc_store_le64 X.length ++
      (if c then zxc_store_le32 ghOut else [0, 0, 0, 0])) 0 = X.length := by
    rw [zxc_le64_store]
    omega
  rw [show zxc_file_header_bytes c ++ blocks ++
      zxc_block_header_bytes ZXC_BLOCK_EOF 0 ++
      (zxc_store_le64 X.length ++
        (if c then zxc_store_le32 ghOut else [0, 0, 0, 0])) =
      zxc_file_header_bytes c ++ blocks ++
        (zxc_block_header_bytes ZXC_BLOCK_EOF 0 ++
          (zxc_store_le64 X.length ++
            (if c then zxc_store_le32 ghOut else [0, 0, 0, 0]))) from by
    simp [List.append_assoc]]
  obtain ⟨f, hred⟩ := zxc_decompress_walk c blocks
    (zxc_block_header_bytes ZXC_BLOCK_EOF 0 ++
      (zxc_store_le64 X.length ++
        (if c then zxc_store_le32 ghOut else [0, 0, 0, 0])))
    X dcap ghOut hwalk hbge hdcap
  rw [hred, zxc_decomp_loop_eof f _ X ghOut c c dcap (by rw [hflen])]
  rw [if_neg (show ¬ (zxc_le64 (zxc_store_le64 X.length ++
      (if c then zxc_store_le32 ghOut else [0, 0, 0, 0])) 0 ≠ X.length)
    from by rw [hle64]; simp)]
  cases c
  · rw [if_neg (by simp)]
  · have h8 : (8 : Nat) = (zxc_store_le64 X.length).length + 0 := by
      simp [zxc_store_le64, zxc_store_le32]
    have h32 := zxc_le32_store ghOut []
    rw [List.append_nil] at h32
    rw [if_neg (show ¬ (true = true ∧ true = true ∧
        zxc_le32 (zxc_store_le64 X.length ++
          (if true = true then zxc_store_le32 ghOut else [0, 0, 0, 0])) 8 ≠
          ghOut) from by
      simp only [if_true, reduceIte]
      rw [h8, zxc_le32_append, h32, Nat.mod_eq_of_lt hgh]
      simp)]

/-- C1 witness: the contract is satisfiable (by the RAW-shaped concrete
instance) and a concrete nonempty buffer round-trips exactly. -/
theorem zxc_claim_c1_witness :
    ∃ arch, zxc_compress zxc_raw_chunk_enc [7] 49 3 false = .ok arch ∧
      zxc_decompress arch 1 false = .ok [7] :=
  zxc_claim_c1 zxc_raw_chunk_enc [7] 3 false 49 1
    (zxc_raw_chunk_enc_ok false) (by decide) (by decide) (by decide)
    (by decide) (by decide) (by decide)

/-- C1 counterexample: the claim as stated quantifies over every byte
buffer `X`, but the empty buffer cannot be compressed at all —
`zxc_compress` rejects it with `NULL_INPUT` (zxc_dispatch.c line 337)
before the block encoder is ever consulted, so the round-trip fails at
`X = []` no matter which encoder instance stands in for the absent
`zxc_compress.c` (here one that always errors). -/
theorem zxc_claim_c1_counterexample :
    zxc_compress (fun _ _ _ => .error .corruptData) []
      (zxc_compress_bound 0) 3 false = .error .nullInput := by
  rfl

/-- C3: when the block loop of one-shot decompression reaches an EOF
block with the 12-byte footer available, it fails with `CORRUPT_DATA` if
the stored little-endian 64-bit source size differs from the number of
bytes written so far, then — when the caller enabled checksums and the
file header carried the checksum flag — fails with `BAD_CHECKSUM` if the
stored 32-bit global hash differs from the rotate-left-1-then-XOR
accumulator, and otherwise returns the bytes written. -/
theorem zxc_claim_c3 (f : Nat) (footer out : List Nat) (gh : Nat)
    (fileCks cksEnabled : Bool) (dstCap : Nat)
    (h12 : 12 ≤ footer.length) :
    zxc_decomp_loop (f + 1)
      (zxc_block_header_bytes ZXC_BLOCK_EOF 0 ++ footer) out gh fileCks
      cksEnabled dstCap =
      (if zxc_le64 footer 0 ≠ out.length then .error .corruptData
       else if cksEnabled ∧ fileCks ∧ zxc_le32 footer 8 ≠ gh then
         .error .badChecksum
       else .ok out) :=
  zxc_decomp_loop_eof f footer out gh fileCks cksEnabled dstCap h12

/-- C3 witness: a concrete EOF block whose footer matches the state is
accepted with the bytes written so far. -/
theorem zxc_claim_c3_witness :
    zxc_decomp_loop (0 + 1)
      (zxc_block_header_bytes ZXC_BLOCK_EOF 0 ++
        (zxc_store_le64 0 ++ [0, 0, 0, 0])) [] 0 true true 0 =
      .ok [] := by
  rw [zxc_claim_c3 0 (zxc_store_le64 0 ++ [0, 0, 0, 0]) [] 0 true true 0
    (by decide)]
  rfl

/-- C4 (amended): for every block encoder satisfying the
encoder–container contract and every archive it lets `zxc_compress`
produce, one-shot decompression rejects any strict prefix that cuts
strictly into the EOF block or the 12-byte footer (removing 1 to 19
trailing bytes leaves a partial EOF header or a partial footer and
yields a negative error) — but the strict prefix that removes the EOF
block and footer entirely (20 bytes, ending exactly on a block
boundary) is accepted and returns the original data, so a stream is
not always rejected without its terminating EOF block and footer. -/
theorem zxc_claim_c4
    (enc : List Nat → Nat → Bool → Except ZxcErr (List Nat))
    (X : List Nat) (lvl : Nat) (c : Bool)
    (ccap dcap k : Nat) (henc : zxc_chunk_enc_ok enc c)
    (hne : X ≠ []) (hX : X.length < 2 ^ 64)
    (hccap : 36 + X.length + 12 * zxc_chunk_count X.length ≤ ccap)
    (hdcap : X.length ≤ dcap) (hk1 : 1 ≤ k) (hk19 : k ≤ 19) :
    ∀ arch, zxc_compress enc X ccap lvl c = .ok arch →
      (∃ e, zxc_decompress (arch.take (arch.length - k)) dcap c =
        .error e) ∧
      zxc_decompress (arch.take (arch.length - 20)) dcap c = .ok X := by
  intro arch harch
  obtain ⟨blocks, ghOut, hcmp, hgh, hble, hbge, hwalk⟩ :=
    zxc_compress_builds enc X lvl c ccap henc hne hccap
  have harchEq : arch = zxc_file_header_bytes c ++ blocks ++
      zxc_block_header_bytes ZXC_BLOCK_EOF 0 ++
      (zxc_store_le64 X.length ++
        (if c then zxc_store_le32 ghOut else [0, 0, 0, 0])) :=
    Except.ok.inj (harch.symm.trans hcmp)
  subst harchEq
  have hfoot : (zxc_store_le64 X.length ++
      (if c then zxc_store_le32 ghOut else [0, 0, 0, 0])).length = 12 := by
    cases c <;> simp [zxc_store_le64, zxc_store_le32]
  have heofl := zxc_block_header_bytes_length ZXC_BLOCK_EOF 0
  have hhl := zxc_file_header_bytes_length c
  have hshape : zxc_file_header_bytes c ++ blocks ++
      zxc_block_header_bytes ZXC_BLOCK_EOF 0 ++
      (zxc_store_le64 X.length ++
        (if c then zxc_store_le32 ghOut else [0, 0, 0, 0])) =
      (zxc_file_header_bytes c ++ blocks) ++
        (zxc_block_header_bytes ZXC_BLOCK_EOF 0 ++
          (zxc_store_le64 X.length ++
            (if c then zxc_store_le32 ghOut else [0, 0, 0, 0]))) := by
    simp [List.append_assoc]
  rw [hshape]
  have hlenArch : ((zxc_file_header_bytes c ++ blocks) ++
      (zxc_block_header_bytes ZXC_BLOCK_EOF 0 ++
        (zxc_store_le64 X.length ++
          (if c then zxc_store_le32 ghOut else [0, 0, 0, 0])))).length =
      (zxc_file_header_bytes c ++ blocks).length + 20 := by
    simp only [List.length_append, hfoot, heofl, hhl]
  rw [hlenArch]
  constructor
  · rw [show (zxc_file_header_bytes c ++ blocks).length + 20 - k =
      (zxc_file_header_bytes c ++ blocks).length + (20 - k) from by
        omega,
      List.take_append]
    by_cases hr : 20 - k ≤ 7
    · refine ⟨.badHeader, ?_⟩
      rw [List.take_append_of_le_length (by rw [heofl]; omega)]
      obtain ⟨f, hred⟩ := zxc_decompress_walk c blocks
        ((zxc_block_header_bytes ZXC_BLOCK_EOF 0).take (20 - k)) X dcap
        ghOut hwalk hbge hdcap
      rw [List.append_assoc] at hred
      rw [List.append_assoc, hred]
      apply zxc_decomp_loop_short_header
      · intro hnil
        have hl := congrArg List.length hnil
        rw [List.length_take, heofl] at hl
        simp at hl
        omega
      · rw [List.length_take, heofl]
        omega
    · refine ⟨.srcTooSmall, ?_⟩
      rw [show 20 - k = (zxc_block_header_bytes ZXC_BLOCK_EOF 0).length +
        (12 - k) from by rw [heofl]; omega, List.take_append]
      obtain ⟨f, hred⟩ := zxc_decompress_walk c blocks
        (zxc_block_header_bytes ZXC_BLOCK_EOF 0 ++
          (zxc_store_le64 X.length ++
            (if c then zxc_store_le32 ghOut else [0, 0, 0, 0])).take
              (12 - k)) X dcap ghOut hwalk hbge hdcap
      rw [List.append_assoc] at hred
      rw [List.append_assoc, hred]
      apply zxc_decomp_loop_eof_short
      rw [List.length_take, hfoot]
      omega
  · rw [Nat.add_sub_cancel, List.take_left]
    obtain ⟨f, hred⟩ := zxc_decompress_walk c blocks [] X dcap ghOut
      hwalk hbge hdcap
    rw [List.append_nil] at hred
    rw [hred]
    exact zxc_decomp_loop_nil f X ghOut c c dcap

/-- The concrete 45-byte archive the RAW-shaped contract instance lets
`zxc_compress` produce for the single byte `[7]` at level 3 without
checksums: 16-byte file header, one 9-byte RAW block, the 8-byte EOF
block header and the 12-byte footer. -/
def zxc_c4_archive : List Nat :=
  [90, 88, 67, 0, 7, 64, 0, 0, 0, 0, 0, 0, 0, 0, 245, 3,
   1, 0, 0, 1, 0, 0, 0, 229, 7,
   255, 0, 0, 0, 0, 0, 0, 166,
   1, 0, 0, 0, 0, 0, 0, 0, 0, 0, 0, 0]

/-- C4 counterexample: the decode loop of `zxc_decompress`
(zxc_dispatch.c, `while (ip < ip_end)`) treats input exhausted at a
block boundary as success — with bytes already decoded and nothing left
to read it returns the output, although the mandatory EOF block and
12-byte footer were never seen.  This concrete instance involves no
hash or CRC bytes, so it traces against the source unchanged; the final
conjunct of the amended theorem lifts it to whole archives: for every
contract-satisfying encoder, cutting exactly the 20 trailing bytes off
a compressed archive leaves a strict prefix that decompression
accepts. -/
theorem zxc_claim_c4_counterexample :
    zxc_decomp_loop 1 [] [7] 0 false false 1 = .ok [7] ∧
    zxc_decomp_loop 1 [] [7] 0 true true 1 = .ok [7] := by
  exact ⟨rfl, rfl⟩

set_option maxRecDepth 100000 in
/-- Witness for the amended C4 theorem: with the RAW-shaped contract
instance at `X = [7]`, cutting 12 trailing bytes (into the footer) is
rejected while cutting the whole 20-byte EOF-plus-footer tail is
accepted. -/
theorem zxc_claim_c4_witness :
    (∃ e, zxc_decompress
      (zxc_c4_archive.take (zxc_c4_archive.length - 12)) 1 false =
        .error e) ∧
    zxc_decompress (zxc_c4_archive.take (zxc_c4_archive.length - 20)) 1
      false = .ok [7] :=
  zxc_claim_c4 zxc_raw_chunk_enc [7] 3 false 49 1 12
    (zxc_raw_chunk_enc_ok false) (by decide) (by decide) (by decide)
    (by decide) (by decide) (by decide) zxc_c4_archive (by rfl)

/-- A crafted GHI block payload: the header advertises 6 sequences, a
1300-byte literal area, and sets the offset-encoding byte to 1. Because
`zxc_decode_block_ghi` derives `bounds_threshold = 256` from that byte
even though every GHI offset field is 16 bits wide, the decoder leaves
the checked path once 258 bytes are written and then meets a sequence
whose offset is 5001. -/
def zxc_c2_input : List Nat :=
  zxc_store_le32 6 ++ zxc_store_le32 1300 ++ [0, 0, 0, 1] ++
  zxc_store_le32 0 ++
  zxc_store_le64 1300 ++ zxc_store_le64 24 ++ zxc_store_le64 0 ++
  List.replicate 1300 65 ++
  zxc_store_le32 4261412864 ++ zxc_store_le32 5000 ++
  zxc_store_le32 0 ++ zxc_store_le32 0 ++ zxc_store_le32 0 ++
  zxc_store_le32 0

set_option maxRecDepth 100000 in
/-- C2: refuted on the GHI decoder. The claim needs the bounds threshold
to be 65536 whenever offsets are 16-bit, but `zxc_decode_block_ghi` sets
`bounds_threshold = 256` when the offset-encoding byte is 1 even though
GHI offsets are always 16-bit fields. On `zxc_c2_input` the decoder has
written only 258 bytes when it switches to the unchecked path and then
executes a match copy with offset 5001 > 258: the embedded model reports
the instrumented out-of-bounds-read marker where the claim requires a
`BAD_OFFSET` failure (in the C code this is a read before the start of
the destination block, not an error return). -/
theorem zxc_claim_c2 :
    zxc_decode_block_ghi zxc_c2_input 4096 = .error .oobMatchRead ∧
    ZxcErr.oobMatchRead ≠ ZxcErr.badOffset := by
  exact ⟨by rfl, by decide⟩

/-- The formula from the specification text for `compress_bound`:
`FILE_HEADER + ceil(n / BLOCK_SIZE) * (BLOCK_HEADER + CHECKSUM + 64)
 + n + BLOCK_HEADER + FILE_FOOTER`, with 0 on overflow, where the
block-count factor is the plain ceiling (0 blocks for n = 0). -/
def zxc_compress_bound_spec_formula (n : Nat) : Nat :=
  if n > (2 ^ 64 - 1) - (2 ^ 64 - 1) / 2 ^ 8 then 0
  else ZXC_FILE_HEADER_SIZE +
    ((n + ZXC_BLOCK_SIZE - 1) / ZXC_BLOCK_SIZE) *
      (ZXC_BLOCK_HEADER_SIZE + ZXC_BLOCK_CHECKSUM_SIZE + 64) +
    n + ZXC_BLOCK_HEADER_SIZE + ZXC_FILE_FOOTER_SIZE

/-- C5 counterexample: at n = 0 the code clamps the block count to 1 and
returns 16 + 76 + 0 + 8 + 12 = 112, while the specification formula with
a plain ceiling (ceil(0 / BLOCK_SIZE) = 0) gives 36; the claim that the
block-count factor is the ceiling "including for n = 0" is false. -/
theorem zxc_claim_c5_counterexample :
    zxc_compress_bound 0 = 112 ∧
    zxc_compress_bound_spec_formula 0 = 36 ∧ (112 : Nat) ≠ 36 := by
  refine ⟨by rfl, by rfl, by decide⟩

/-- C5 (amended): below the overflow guard (n ≤ 2^64 − 2^56, where the
guard is `SIZE_MAX - (SIZE_MAX >> 8)`), `zxc_compress_bound n` equals
`36 + n + 76 * max 1 (ceil(n / BLOCK_SIZE))` — the block-count factor is
the ceiling clamped below by 1, not the plain ceiling — and for n ≥ 1 the
clamp is inert so the specification formula is exact. The sum never
wraps modulo 2^64 under the guard. -/
theorem zxc_claim_c5 (n : Nat)
    (hg : n ≤ (2 ^ 64 - 1) - (2 ^ 64 - 1) / 2 ^ 8) :
    zxc_compress_bound n =
      36 + n + 76 * max 1 ((n + ZXC_BLOCK_SIZE - 1) / ZXC_BLOCK_SIZE) ∧
    (1 ≤ n →
      zxc_compress_bound n = zxc_compress_bound_spec_formula n) := by
  constructor
  · simp only [zxc_compress_bound, ZXC_BLOCK_SIZE, ZXC_FILE_HEADER_SIZE,
      ZXC_BLOCK_HEADER_SIZE, ZXC_BLOCK_CHECKSUM_SIZE, ZXC_FILE_FOOTER_SIZE]
    rw [if_neg (show ¬ n > (2 ^ 64 - 1) - (2 ^ 64 - 1) / 2 ^ 8 from by
      omega)]
    split <;> omega
  · intro hn
    simp only [zxc_compress_bound, zxc_compress_bound_spec_formula,
      ZXC_BLOCK_SIZE, ZXC_FILE_HEADER_SIZE, ZXC_BLOCK_HEADER_SIZE,
      ZXC_BLOCK_CHECKSUM_SIZE, ZXC_FILE_FOOTER_SIZE]
    rw [if_neg (show ¬ n > (2 ^ 64 - 1) - (2 ^ 64 - 1) / 2 ^ 8 from by
      omega),
      if_neg (show ¬ n > (2 ^ 64 - 1) - (2 ^ 64 - 1) / 2 ^ 8 from by
      omega)]
    split <;> omega

/-- Witness for the amended C5 theorem at n = 5. -/
theorem zxc_claim_c5_witness :
    zxc_compress_bound 5 =
      36 + 5 + 76 * max 1 ((5 + ZXC_BLOCK_SIZE - 1) / ZXC_BLOCK_SIZE) ∧
    (1 ≤ 5 →
      zxc_compress_bound 5 = zxc_compress_bound_spec_formula 5) :=
  zxc_claim_c5 5 (by decide)

/-- C6: for every buffer, `zxc_get_decompressed_size` returns the
little-endian 64-bit value stored 12 bytes before the end whenever the
buffer holds at least FILE_HEADER + FILE_FOOTER = 28 bytes and its first
four bytes decode to the magic word, and returns 0 in every other case. -/
theorem zxc_claim_c6 (src : List Nat) :
    zxc_get_decompressed_size src src.length =
      if 28 ≤ src.length ∧ zxc_le32 src 0 = ZXC_MAGIC_WORD then
        zxc_le64 src (src.length - 12)
      else 0 := by
  simp only [zxc_get_decompressed_size, ZXC_FILE_HEADER_SIZE,
    ZXC_FILE_FOOTER_SIZE]
  by_cases h1 : src.length < 16 + 12
  · rw [if_pos h1, if_neg (show ¬ (28 ≤ src.length ∧
      zxc_le32 src 0 = ZXC_MAGIC_WORD) from fun hc => by omega)]
  · rw [if_neg h1]
    by_cases h2 : zxc_le32 src 0 ≠ ZXC_MAGIC_WORD
    · rw [if_pos h2, if_neg (show ¬ (28 ≤ src.length ∧
        zxc_le32 src 0 = ZXC_MAGIC_WORD) from fun hc => h2 hc.2)]
    · rw [if_neg h2, if_pos (show 28 ≤ src.length ∧
        zxc_le32 src 0 = ZXC_MAGIC_WORD from
        ⟨by omega, not_not.mp h2⟩)]

/-- The GLO literal-stream RLE expansion exactly as worded in the
specification, for comparison with the loop embedded from the code: a
token with bit 7 clear copies (low 7 bits) + 1 bytes verbatim from the
stream, a token with bit 7 set writes (low 7 bits) + 4 copies of the
next stream byte; the expansion must produce exactly the declared number
of bytes without over-reading the stream, else CORRUPT_DATA. -/
def zxc_rle_expand_spec (fuel : Nat) (stream : List Nat)
    (required : Nat) : Except ZxcErr (List Nat) :=
  match fuel with
  | 0 => .error .corruptData
  | fuel + 1 =>
    if required = 0 then .ok []
    else
      match stream with
      | [] => .error .corruptData
      | t :: rest =>
        if t < 128 then
          let len := t % 128 + 1
          if required < len ∨ rest.length < len then .error .corruptData
          else
            (zxc_rle_expand_spec fuel (rest.drop len)
              (required - len)).map (fun tl => rest.take len ++ tl)
        else
          let len := t % 128 + 4
          if required < len ∨ rest = [] then .error .corruptData
          else
            (zxc_rle_expand_spec fuel (rest.drop 1) (required - len)).map
              (fun tl => List.replicate len (rest.headD 0) ++ tl)

theorem zxc_except_map_map (e : Except ZxcErr (List Nat))
    (f g : List Nat → List Nat) :
    (e.map f).map g = e.map (fun x => g (f x)) := by cases e <;> rfl

theorem zxc_glo_rle_loop_ok_length (fuel : Nat) :
    ∀ stream r w required out,
      zxc_glo_rle_loop fuel stream r w required = .ok out →
      out.length = required := by
  induction fuel with
  | zero =>
    intro stream r w required out h
    simp [zxc_glo_rle_loop] at h
  | succ fuel ih =>
    intro stream r w required out h
    simp only [zxc_glo_rle_loop] at h
    split_ifs at h
    all_goals first
      | exact ih _ _ _ _ _ h
      | (rw [← Except.ok.inj h]; omega)
      | simp at h

theorem zxc_glo_rle_loop_refines (fuel : Nat) (stream : List Nat)
    (hbytes : ∀ b ∈ stream, b < 256) :
    ∀ r w required, r ≤ stream.length → w.length ≤ required →
      zxc_glo_rle_loop fuel stream r w required =
        (zxc_rle_expand_spec fuel (stream.drop r)
          (required - w.length)).map (fun tl => w ++ tl) := by
  induction fuel with
  | zero => intro r w required hr hw; rfl
  | succ fuel ih =>
    intro r w required hr hw
    by_cases hcond : r < stream.length ∧ w.length < required
    · obtain ⟨hrlt, hwlt⟩ := hcond
      have hdrop := List.drop_eq_getElem_cons hrlt
      have hb : stream[r] < 256 := hbytes _ (List.getElem_mem hrlt)
      have htok : byteAt stream r = stream[r] := by
        unfold byteAt
        simp only [List.getD, List.get?_eq_getElem?,
          List.getElem?_eq_getElem hrlt, Option.getD_some]
        exact Nat.mod_eq_of_lt hb
      simp only [zxc_glo_rle_loop]
      rw [if_pos ⟨hrlt, hwlt⟩, htok, hdrop]
      simp only [zxc_rle_expand_spec, ZXC_LIT_RLE_FLAG]
      rw [if_neg (show ¬ required - w.length = 0 from by omega)]
      by_cases ht : stream[r] < 128
      · rw [if_pos ht, if_pos ht]
        by_cases herr : w.length + (stream[r] % 128 + 1) > required ∨
            r + 1 + (stream[r] % 128 + 1) > stream.length
        · rw [if_pos herr, if_pos (show
            required - w.length < stream[r] % 128 + 1 ∨
            (stream.drop (r + 1)).length < stream[r] % 128 + 1 from by
              rw [List.length_drop]; omega)]
          rfl
        · rw [if_neg herr, if_neg (show
            ¬ (required - w.length < stream[r] % 128 + 1 ∨
              (stream.drop (r + 1)).length < stream[r] % 128 + 1) from by
              rw [List.length_drop]; omega)]
          have hseglen :
              ((stream.drop (r + 1)).take (stream[r] % 128 + 1)).length =
                stream[r] % 128 + 1 := by
            rw [List.length_take, List.length_drop]; omega
          rw [ih (r + 1 + (stream[r] % 128 + 1))
            (w ++ (stream.drop (r + 1)).take (stream[r] % 128 + 1))
            required (by omega)
            (by rw [List.length_append, hseglen]; omega)]
          have harg : required -
              (w ++ (stream.drop (r + 1)).take
                (stream[r] % 128 + 1)).length =
              required - w.length - (stream[r] % 128 + 1) := by
            rw [List.length_append, hseglen]; omega
          rw [harg, zxc_except_map_map, List.drop_drop]
          simp only [List.append_assoc]
      · rw [if_neg ht, if_neg ht]
        by_cases hr1 : r + 1 < stream.length
        · have hdrop2 := List.drop_eq_getElem_cons hr1
          have hb2 : stream[r + 1] < 256 :=
            hbytes _ (List.getElem_mem hr1)
          have htok2 : byteAt stream (r + 1) = stream[r + 1] := by
            unfold byteAt
            simp only [List.getD, List.get?_eq_getElem?,
              List.getElem?_eq_getElem hr1, Option.getD_some]
            exact Nat.mod_eq_of_lt hb2
          rw [htok2]
          have hhead : (stream.drop (r + 1)).headD 0 = stream[r + 1] := by
            rw [hdrop2]
            rfl
          by_cases herr : w.length + (stream[r] % 128 + 4) > required
          · rw [if_pos (Or.inl herr),
              if_pos (Or.inl (show required - w.length <
                stream[r] % 128 + 4 from by omega))]
            rfl
          · rw [if_neg (show ¬ (w.length + (stream[r] % 128 + 4) >
                required ∨ r + 1 ≥ stream.length) from by
                  push_neg
                  exact ⟨by omega, by omega⟩),
              if_neg (show ¬ (required - w.length < stream[r] % 128 + 4 ∨
                stream.drop (r + 1) = []) from by
                  push_neg
                  refine ⟨by omega, ?_⟩
                  rw [hdrop2]
                  exact List.cons_ne_nil _ _)]
            rw [ih (r + 1 + 1)
              (w ++ List.replicate (stream[r] % 128 + 4) stream[r + 1])
              required (by omega)
              (by rw [List.length_append, List.length_replicate]; omega)]
            have harg : required -
                (w ++ List.replicate (stream[r] % 128 + 4)
                  stream[r + 1]).length =
                required - w.length - (stream[r] % 128 + 4) := by
              rw [List.length_append, List.length_replicate]; omega
            rw [harg, zxc_except_map_map, hhead, List.drop_drop]
            simp only [List.append_assoc]
        · have hnil : stream.drop (r + 1) = [] :=
            List.drop_eq_nil_of_le (by omega)
          rw [hnil,
            if_pos (show w.length + (stream[r] % 128 + 4) > required ∨
              r + 1 ≥ stream.length from Or.inr (by omega)),
            if_pos (show required - w.length < stream[r] % 128 + 4 ∨
              ([] : List Nat) = [] from Or.inr rfl)]
          rfl
    · simp only [zxc_glo_rle_loop]
      rw [if_neg hcond]
      by_cases hwr : w.length = required
      · rw [if_neg (fun h => h hwr),
          show required - w.length = 0 from by omega]
        simp only [zxc_rle_expand_spec]
        simp [Except.map]
      · have hrlen : stream.length ≤ r := by
          by_contra hlt
          exact hcond ⟨by omega, by omega⟩
        rw [if_pos hwr, List.drop_eq_nil_of_le hrlen]
        simp only [zxc_rle_expand_spec]
        rw [if_neg (show ¬ required - w.length = 0 from by omega)]
        rfl

/-- C7: the literal-stream expansion loop of `zxc_decode_block_glo`
agrees, on every byte stream and declared size, with the token-by-token
RLE expansion worded in the specification (bit-7-clear tokens copy
low7+1 bytes verbatim, bit-7-set tokens write low7+4 copies of the next
byte, CORRUPT_DATA unless exactly the declared size is produced without
over-reading), and any successful expansion has exactly the declared
length. -/
theorem zxc_claim_c7 (stream : List Nat) (required : Nat)
    (hbytes : ∀ b ∈ stream, b < 256) :
    zxc_glo_rle_loop (stream.length + 1) stream 0 [] required =
      zxc_rle_expand_spec (stream.length + 1) stream required ∧
    (∀ out,
      zxc_glo_rle_loop (stream.length + 1) stream 0 [] required =
        .ok out → out.length = required) := by
  constructor
  · have h := zxc_glo_rle_loop_refines (stream.length + 1) stream hbytes
      0 [] required (Nat.zero_le _) (Nat.zero_le _)
    simp only [List.drop_zero, List.length_nil, Nat.sub_zero,
      List.nil_append] at h
    rw [h]
    cases zxc_rle_expand_spec (stream.length + 1) stream required <;> rfl
  · intro out h
    exact zxc_glo_rle_loop_ok_length _ _ _ _ _ _ h

/-- Witness for C7: the two-byte stream `[0x81, 7]` (RLE token `0x81`:
low 7 bits = 1, so 1 + 4 = 5 copies of the fill byte 7) expands to five
7s. -/
theorem zxc_claim_c7_witness :
    (zxc_glo_rle_loop ([129, 7].length + 1) [129, 7] 0 [] 5 =
        zxc_rle_expand_spec ([129, 7].length + 1) [129, 7] 5 ∧
      (∀ out,
        zxc_glo_rle_loop ([129, 7].length + 1) [129, 7] 0 [] 5 =
          .ok out → out.length = 5)) ∧
    zxc_glo_rle_loop ([129, 7].length + 1) [129, 7] 0 [] 5 =
      .ok (List.replicate 5 7) :=
  ⟨zxc_claim_c7 [129, 7] 5 (by decide), by rfl⟩

/-- C8 counterexample: a 16-byte all-zero buffer fails the magic check
inside the header parser, which reports BAD_MAGIC — but `zxc_decompress`
collapses every header-parse failure to BAD_HEADER before returning, so
at the API boundary the error is BAD_HEADER, not BAD_MAGIC (the
repository's own test suite expects BAD_HEADER for a corrupted magic). -/
theorem zxc_claim_c8_counterexample :
    zxc_read_file_header (List.replicate 16 0) 16 = .error .badMagic ∧
    zxc_decompress (List.replicate 16 0) 64 false = .error .badHeader ∧
    ZxcErr.badHeader ≠ ZxcErr.badMagic := by
  refine ⟨by rfl, by rfl, by decide⟩

/-- C8 (amended): for every source of at least 16 bytes whose first four
bytes do not decode to the magic word, the header parser itself fails
with BAD_MAGIC, but one-shot decompression remaps the failure and
returns BAD_HEADER: the parser-level code is not surfaced unchanged at
the API boundary. -/
theorem zxc_claim_c8 (src : List Nat) (dcap : Nat) (c : Bool)
    (hlen : 16 ≤ src.length)
    (hmagic : zxc_le32 src 0 ≠ ZXC_MAGIC_WORD) :
    zxc_read_file_header src src.length = .error .badMagic ∧
    zxc_decompress src dcap c = .error .badHeader := by
  have hparse : zxc_read_file_header src src.length =
      .error .badMagic := by
    unfold zxc_read_file_header
    rw [if_neg (show ¬ src.length < ZXC_FILE_HEADER_SIZE from by
      simp only [ZXC_FILE_HEADER_SIZE]; omega), if_pos hmagic]
  refine ⟨hparse, ?_⟩
  unfold zxc_decompress
  rw [if_neg (show ¬ src.length < ZXC_FILE_HEADER_SIZE from by
    simp only [ZXC_FILE_HEADER_SIZE]; omega), hparse]

/-- Witness for the amended C8 theorem on a 16-byte buffer of 1s. -/
theorem zxc_claim_c8_witness :
    zxc_read_file_header (List.replicate 16 1)
      (List.replicate 16 1).length = .error .badMagic ∧
    zxc_decompress (List.replicate 16 1) 64 false = .error .badHeader :=
  zxc_claim_c8 (List.replicate 16 1) 64 false (by decide) (by decide)

/-- C9: whenever the header parser accepts a file header, the block size
it reports is (byte at offset 5) * 4096 when that byte is non-zero and
64 * 4096 = 256 KiB when that byte is zero. -/
theorem zxc_claim_c9 (src : List Nat) (fh : Nat × Bool)
    (h : zxc_read_file_header src src.length = .ok fh) :
    fh.1 = (if byteAt src 5 ≠ 0 then byteAt src 5 else 64) * 4096 := by
  simp only [zxc_read_file_header, ZXC_BLOCK_UNIT] at h
  split_ifs at h with h1 h2 h3 h4 h5
  · rw [if_pos h5, ← Except.ok.inj h]
  · rw [if_neg h5, ← Except.ok.inj h]

/-- Witness for C9 on the header written by the library itself (unit
byte 64, block size 256 KiB, checksum flag clear). -/
theorem zxc_claim_c9_witness :
    ((262144, false) : Nat × Bool).1 =
      (if byteAt (zxc_file_header_bytes false) 5 ≠ 0
       then byteAt (zxc_file_header_bytes false) 5 else 64) * 4096 :=
  zxc_claim_c9 (zxc_file_header_bytes false) (262144, false) (by rfl)

/-- C10: `zxc_compress` rejects degenerate inputs up front — an empty
source buffer or a zero destination capacity (the model's counterparts
of the null-pointer and zero-size guards) yields NULL_INPUT before
anything is written and before the block encoder is ever consulted
(hence for every encoder instance), so the empty buffer can never be
compressed. -/
theorem zxc_claim_c10
    (enc : List Nat → Nat → Bool → Except ZxcErr (List Nat))
    (src : List Nat) (dstCap level : Nat) (cks : Bool)
    (h : src = [] ∨ dstCap = 0) :
    zxc_compress enc src dstCap level cks = .error .nullInput := by
  unfold zxc_compress
  rw [if_pos (show src.length = 0 ∨ dstCap = 0 from by
    rcases h with h | h
    · exact Or.inl (by rw [h]; rfl)
    · exact Or.inr h)]

/-- Witness for C10: the empty source with ample capacity is refused,
whatever the encoder does (here one that always errors). -/
theorem zxc_claim_c10_witness :
    zxc_compress (fun _ _ _ => .error .memory) [] 1024 3 true =
      .error .nullInput :=
  zxc_claim_c10 (fun _ _ _ => .error .memory) [] 1024 3 true
    (Or.inl rfl)
